import Mathlib

/-!
Verification development for the docxside-pdf layout and pagination engine
(`src/pdf.rs`, `src/fonts.rs`, `src/model.rs`, `src/error.rs`, `src/lib.rs`).

The Rust code is shallowly embedded: `f32` values are modelled as exact
rationals (`ℚ`), Rust `String` text as `List Char`, vectors as lists, and
the `seen_fonts: HashMap<String, FontEntry>` as a total function
`String → FontEntry` (the code registers an entry for every run key before
layout and unwraps lookups with `expect("font registered")`).
Filesystem-dependent font resolution (`fonts.rs::register_font`) is
abstracted as an oracle argument.  All definitions are translated from the
source; fields of `Run`/`Document` that `pdf.rs` uses but the (older)
`model.rs` does not declare (`field_code`, header/footer variants) are
taken from their usage in `pdf.rs`.
-/

namespace Dxp

/-! ## Data model (src/model.rs, plus fields used by src/pdf.rs) -/

inductive Alignment
  | left | center | right | justify
deriving DecidableEq, Repr

inductive TabAlignment
  | left | center | right | decimal
deriving DecidableEq, Repr

structure TabStop where
  position : ℚ
  alignment : TabAlignment
  leader : Option Char
deriving DecidableEq, Repr

inductive VertAlign
  | baseline | superscript | subscript
deriving DecidableEq, Repr

/-- Field codes resolved in headers/footers.  Modelled from the spec and
from the usage in `src/pdf.rs` (`FieldCode::Page`, `FieldCode::NumPages`):
the `model.rs` under `src/` predates header/footer support. -/
inductive FieldCode
  | page | numPages
deriving DecidableEq, Repr

structure Run where
  text : List Char
  font_size : ℚ
  font_name : String
  bold : Bool
  italic : Bool
  underline : Bool
  strikethrough : Bool
  color : Option (Nat × Nat × Nat)
  is_tab : Bool
  vertical_align : VertAlign
  field_code : Option FieldCode
deriving DecidableEq, Repr

structure EmbeddedImage where
  pixel_width : Nat
  pixel_height : Nat
  display_width : ℚ
  display_height : ℚ
deriving DecidableEq, Repr

structure BorderBottom where
  width_pt : ℚ
  space_pt : ℚ
  color : Nat × Nat × Nat
deriving DecidableEq, Repr

structure Paragraph where
  runs : List Run
  space_before : ℚ
  space_after : ℚ
  content_height : ℚ
  alignment : Alignment
  indent_left : ℚ
  indent_hanging : ℚ
  list_label : List Char
  contextual_spacing : Bool
  keep_next : Bool
  line_spacing : Option ℚ
  image : Option EmbeddedImage
  border_bottom : Option BorderBottom
  page_break_before : Bool
  tab_stops : List TabStop
deriving DecidableEq, Repr

structure TableCell where
  width : ℚ
  paragraphs : List Paragraph
deriving DecidableEq, Repr

structure TableRow where
  cells : List TableCell
deriving DecidableEq, Repr

structure Table where
  col_widths : List ℚ
  rows : List TableRow
deriving DecidableEq, Repr

inductive Block
  | paragraph (p : Paragraph)
  | table (t : Table)
deriving DecidableEq, Repr

/-- Header/footer variant: a list of paragraphs.  Modelled from the spec
and from the usage `hf.paragraphs` in `src/pdf.rs::render_header_footer`
(the `model.rs` under `src/` predates header/footer support). -/
structure HeaderFooter where
  paragraphs : List Paragraph
deriving DecidableEq, Repr

structure Document where
  page_width : ℚ
  page_height : ℚ
  margin_top : ℚ
  margin_bottom : ℚ
  margin_left : ℚ
  margin_right : ℚ
  header_margin : ℚ
  footer_margin : ℚ
  line_pitch : ℚ
  line_spacing : ℚ
  blocks : List Block
  header_default : Option HeaderFooter
  header_first : Option HeaderFooter
  footer_default : Option HeaderFooter
  footer_first : Option HeaderFooter
  different_first_page : Bool

/-! ## Font metrics (src/fonts.rs) -/

/-- Engine-internal font entry (`fonts.rs::FontEntry`).  `widths_1000` is
indexed by `byte - 32` exactly as the 224-entry `Vec<f32>` in the source;
the PDF object reference is omitted (pure bookkeeping). -/
structure FontEntry where
  pdf_name : String
  widths_1000 : Nat → ℚ
  line_h_ratio : Option ℚ
  ascender_ratio : Option ℚ

/-- Metrics produced by font resolution, before a PDF resource name is
attached (`fonts.rs::register_font` less the PDF-writer side effects;
the filesystem/embedded-font search is abstracted by an oracle). -/
structure FontMetrics where
  widths_1000 : Nat → ℚ
  line_h_ratio : Option ℚ
  ascender_ratio : Option ℚ

/-- Rust `char::is_whitespace`: the Unicode White_Space property. -/
def rustIsWhitespace (c : Char) : Bool :=
  let n := c.toNat
  (0x09 ≤ n ∧ n ≤ 0x0D) ∨ n = 0x20 ∨ n = 0x85 ∨ n = 0xA0 ∨ n = 0x1680 ∨
    (0x2000 ≤ n ∧ n ≤ 0x200A) ∨ n = 0x2028 ∨ n = 0x2029 ∨ n = 0x202F ∨
    n = 0x205F ∨ n = 0x3000

/-- `fonts.rs::primary_font_name`: `name.split(';').next().unwrap_or(name).trim()`. -/
def primaryFontName (name : String) : String :=
  let first := name.data.takeWhile (· ≠ ';')
  let trimmed := (first.dropWhile rustIsWhitespace).reverse.dropWhile rustIsWhitespace |>.reverse
  String.mk trimmed

/-- `fonts.rs::font_key`: font family plus "/B", "/I", "/BI" style suffixes. -/
def fontKey (run : Run) : String :=
  let base := primaryFontName run.font_name
  match run.bold, run.italic with
  | true, true => base ++ "/BI"
  | true, false => base ++ "/B"
  | false, true => base ++ "/I"
  | false, false => base

/-- `fonts.rs::to_winansi_bytes`, per character: the exact `match c as u32`
from the source.  ASCII (incl. control characters 0–31) and the Latin-1
supplement map to themselves; a fixed set of codepoints maps into
0x80–0x9F; everything else is dropped. -/
def winAnsiByte (c : Char) : Option Nat :=
  let n := c.toNat
  if n ≤ 0x7F then some n
  else if 0xA0 ≤ n ∧ n ≤ 0xFF then some n
  else if n = 0x20AC then some 0x80
  else if n = 0x201A then some 0x82
  else if n = 0x0192 then some 0x83
  else if n = 0x201E then some 0x84
  else if n = 0x2026 then some 0x85
  else if n = 0x2020 then some 0x86
  else if n = 0x2021 then some 0x87
  else if n = 0x02C6 then some 0x88
  else if n = 0x2030 then some 0x89
  else if n = 0x0160 then some 0x8A
  else if n = 0x2039 then some 0x8B
  else if n = 0x0152 then some 0x8C
  else if n = 0x017D then some 0x8E
  else if n = 0x2018 then some 0x91
  else if n = 0x2019 then some 0x92
  else if n = 0x201C then some 0x93
  else if n = 0x201D then some 0x94
  else if n = 0x2022 then some 0x95
  else if n = 0x2013 then some 0x96
  else if n = 0x2014 then some 0x97
  else if n = 0x02DC then some 0x98
  else if n = 0x2122 then some 0x99
  else if n = 0x0161 then some 0x9A
  else if n = 0x203A then some 0x9B
  else if n = 0x0153 then some 0x9C
  else if n = 0x017E then some 0x9E
  else if n = 0x0178 then some 0x9F
  else none

/-- `fonts.rs::to_winansi_bytes`: `s.chars().filter_map(...).collect()`. -/
def toWinansiBytes (s : List Char) : List Nat :=
  s.filterMap winAnsiByte

/-! ## Text flow engine (src/pdf.rs lines 12–141) -/

structure WordChunk where
  pdf_font : String
  text : List Char
  font_size : ℚ
  color : Option (Nat × Nat × Nat)
  x_offset : ℚ
  width : ℚ
  underline : Bool
  strikethrough : Bool
  y_offset : ℚ
deriving DecidableEq, Repr

structure TextLine where
  chunks : List WordChunk
  total_width : ℚ
deriving DecidableEq, Repr

/-- `pdf.rs::effective_font_size`: superscript/subscript measure at 0.58×. -/
def effectiveFontSize (run : Run) : ℚ :=
  match run.vertical_align with
  | .superscript | .subscript => run.font_size * (58/100)
  | .baseline => run.font_size

/-- `pdf.rs::vert_y_offset`: +0.35×size (superscript), −0.14×size (subscript). -/
def vertYOffset (run : Run) : ℚ :=
  match run.vertical_align with
  | .superscript => run.font_size * (35/100)
  | .subscript => -(run.font_size * (14/100))
  | .baseline => 0

def DEFAULT_TAB_INTERVAL : ℚ := 36

/-- Word width: `to_winansi_bytes(word).iter().filter(|&&b| b >= 32)
.map(|&b| entry.widths_1000[(b - 32) as usize] * eff_fs / 1000.0).sum()`. -/
def wordWidth (widths : Nat → ℚ) (effFs : ℚ) (word : List Char) : ℚ :=
  (((toWinansiBytes word).filter (fun b => 32 ≤ b)).map
    (fun b => widths (b - 32) * effFs / 1000)).sum

/-- The running total of a chunk list: `chunks.last().map(|c| c.x_offset + c.width).unwrap_or(0.0)`. -/
def totalOf (chunks : List WordChunk) : ℚ :=
  (chunks.getLast?.map (fun c => c.x_offset + c.width)).getD 0

/-- `pdf.rs::finish_line`. -/
def finishLine (chunks : List WordChunk) : TextLine :=
  { chunks := chunks, total_width := totalOf chunks }

/-- Rust `str::split_whitespace` on `List Char`: helper carrying the
current word (reversed). -/
def splitWsGo : List Char → List Char → List (List Char)
  | [], cur => if cur.isEmpty then [] else [cur.reverse]
  | c :: cs, cur =>
    if rustIsWhitespace c then
      if cur.isEmpty then splitWsGo cs [] else cur.reverse :: splitWsGo cs []
    else splitWsGo cs (c :: cur)

/-- Rust `str::split_whitespace`: non-empty maximal runs of
non-whitespace characters. -/
def splitWhitespace (s : List Char) : List (List Char) :=
  splitWsGo s []

/-- Rust `str::starts_with(char::is_whitespace)`. -/
def startsWithWs (s : List Char) : Bool :=
  match s with
  | [] => false
  | c :: _ => rustIsWhitespace c

/-- Rust `str::ends_with(char::is_whitespace)`. -/
def endsWithWs (s : List Char) : Bool :=
  match s.getLast? with
  | none => false
  | some c => rustIsWhitespace c

/-- Accumulator of the word-wrap loop in `build_paragraph_lines`:
finished lines, the chunks of the current line, and the cursor. -/
structure LineAcc where
  lines : List TextLine
  chunks : List WordChunk
  currentX : ℚ
deriving DecidableEq, Repr

/-- One iteration of the word loop of `pdf.rs::build_paragraph_lines`
(lines 80–124): decide the space, break the line if the word would
overflow a non-empty line, place the word. -/
def stepWord (maxWidth : ℚ) (pdfName : String) (word : List Char) (effFs : ℚ)
    (color : Option (Nat × Nat × Nat)) (ul strike : Bool) (yOff ww effSpaceW : ℚ)
    (needSpaceCond : Bool) (acc : LineAcc) : LineAcc :=
  let needSpace := ¬acc.chunks.isEmpty ∧ needSpaceCond
  let proposedX := if needSpace then acc.currentX + effSpaceW else acc.currentX
  if ¬acc.chunks.isEmpty ∧ maxWidth < proposedX + ww then
    { lines := acc.lines ++ [finishLine acc.chunks],
      chunks := [⟨pdfName, word, effFs, color, 0, ww, ul, strike, yOff⟩],
      currentX := ww }
  else
    { lines := acc.lines,
      chunks := acc.chunks ++ [⟨pdfName, word, effFs, color, proposedX, ww, ul, strike, yOff⟩],
      currentX := proposedX + ww }

/-- The enumerated word loop of one run in `build_paragraph_lines`:
`for (i, word) in run.text.split_whitespace().enumerate()`. -/
def runWordsLoop (maxWidth : ℚ) (entry : FontEntry) (run : Run)
    (effFs spaceW yOff : ℚ) (prevWs : Bool) (prevSpaceW : ℚ) :
    Nat → List (List Char) → LineAcc → LineAcc
  | _, [], acc => acc
  | i, w :: ws, acc =>
    let ww := wordWidth entry.widths_1000 effFs w
    let cond := 0 < i ∨ startsWithWs run.text = true ∨ prevWs = true
    let effSp := if 0 < i ∨ startsWithWs run.text = true then spaceW else prevSpaceW
    runWordsLoop maxWidth entry run effFs spaceW yOff prevWs prevSpaceW (i + 1) ws
      (stepWord maxWidth entry.pdf_name w effFs run.color run.underline
        run.strikethrough yOff ww effSp (decide cond) acc)

/-- The run loop of `build_paragraph_lines` (lines 69–128), threading the
accumulator together with `prev_ended_with_ws` and `prev_space_w`. -/
def runsLoop (fonts : String → FontEntry) (maxWidth : ℚ) :
    List Run → LineAcc × Bool × ℚ → LineAcc × Bool × ℚ
  | [], s => s
  | run :: rest, (acc, prevWs, prevSpaceW) =>
    if run.is_tab then
      runsLoop fonts maxWidth rest (acc, prevWs, prevSpaceW)
    else
      let entry := fonts (fontKey run)
      let effFs := effectiveFontSize run
      let spaceW := entry.widths_1000 0 * effFs / 1000
      let yOff := vertYOffset run
      let acc := runWordsLoop maxWidth entry run effFs spaceW yOff prevWs prevSpaceW
        0 (splitWhitespace run.text) acc
      runsLoop fonts maxWidth rest (acc, endsWithWs run.text, spaceW)

/-- `pdf.rs::build_paragraph_lines` (lines 58–141): wrap runs into lines;
flush the pending chunks; an empty result becomes one empty line. -/
def buildParagraphLines (runs : List Run) (fonts : String → FontEntry)
    (maxWidth : ℚ) : List TextLine :=
  let s := runsLoop fonts maxWidth runs (⟨[], [], 0⟩, false, 0)
  let acc := s.1
  let lines := if acc.chunks.isEmpty then acc.lines else acc.lines ++ [finishLine acc.chunks]
  if lines.isEmpty then [{ chunks := [], total_width := 0 }] else lines
/-! ## Tab-stop segmentation (src/pdf.rs lines 143–365) -/

/-- `pdf.rs::find_next_tab_stop`: first configured stop beyond the cursor
by more than 0.5pt, else a synthesized default-interval stop. -/
def findNextTabStop (currentX : ℚ) (tab_stops : List TabStop) (indentLeft : ℚ) : TabStop :=
  let absX := currentX + indentLeft
  match tab_stops.find? (fun stop => absX + 1/2 < stop.position) with
  | some stop => stop
  | none =>
    { position := ((⌊absX / DEFAULT_TAB_INTERVAL⌋ : ℚ) + 1) * DEFAULT_TAB_INTERVAL,
      alignment := .left, leader := none }

/-- Word loop of `pdf.rs::segment_width`. -/
def segWordsWidth (widths : Nat → ℚ) (spaceW effFs : ℚ) :
    Nat → List (List Char) → ℚ × Bool → ℚ × Bool
  | _, [], st => st
  | i, w :: ws, (acc, first) =>
    let acc := if ¬first ∨ 0 < i then acc + spaceW else acc
    segWordsWidth widths spaceW effFs (i + 1) ws (acc + wordWidth widths effFs w, false)

/-- `pdf.rs::segment_width`: the width of a tab segment's text, including
inter-word spaces (spaces use the current run's space advance). -/
def segmentWidth (fonts : String → FontEntry) (segRuns : List Run) : ℚ :=
  (segRuns.foldl (fun st run =>
    let entry := fonts (fontKey run)
    let effFs := effectiveFontSize run
    let spaceW := entry.widths_1000 0 * effFs / 1000
    segWordsWidth entry.widths_1000 spaceW effFs 0 (splitWhitespace run.text) st)
    (0, true)).1

/-- UTF-8 encoded length of a character (Rust `String::len` counts bytes). -/
def utf8Len (c : Char) : Nat :=
  if c.toNat ≤ 0x7F then 1
  else if c.toNat ≤ 0x7FF then 2
  else if c.toNat ≤ 0xFFFF then 3
  else 4

def utf8StrLen (s : List Char) : Nat := (s.map utf8Len).sum

/-- Byte index of the first '.' (`full_text.find('.')`). -/
def byteIdxOfDot : List Char → Option Nat
  | [] => none
  | c :: cs => if c = '.' then some 0 else (byteIdxOfDot cs).map (utf8Len c + ·)

/-- Greedy prefix of at most `n` UTF-8 bytes (`&run.text[..chars_remaining]`). -/
def takeBytes : Nat → List Char → List Char
  | _, [] => []
  | n, c :: cs => if utf8Len c ≤ n then c :: takeBytes (n - utf8Len c) cs else []

/-- Run loop of `pdf.rs::decimal_before_width`. -/
def dbwLoop (fonts : String → FontEntry) : List Run → Nat → ℚ → ℚ
  | [], _, w => w
  | run :: rest, remaining, w =>
    let entry := fonts (fontKey run)
    let effFs := effectiveFontSize run
    let textLen := utf8StrLen run.text
    let p : List Char × Nat :=
      if textLen ≤ remaining then (run.text, remaining - textLen)
      else (takeBytes remaining run.text, 0)
    let w := w + (((toWinansiBytes p.1).filter (fun b => 32 ≤ b)).map
      (fun b => entry.widths_1000 (b - 32) * effFs / 1000)).sum
    if p.2 = 0 then w else dbwLoop fonts rest p.2 w

/-- `pdf.rs::decimal_before_width`: the width of the segment text strictly
before the first '.' of the concatenated segment text. -/
def decimalBeforeWidth (fonts : String → FontEntry) (segRuns : List Run) : ℚ :=
  let fullText := segRuns.foldl (fun acc r => acc ++ r.text) []
  let before := match byteIdxOfDot fullText with
    | some i => i
    | none => utf8StrLen fullText
  dbwLoop fonts segRuns before 0

/-- Split runs into tab-delimited segments, each paired with a flag saying
whether a tab precedes it (`pdf.rs::build_tabbed_line` lines 224–241). -/
def splitSegments : List Run → List Run → Bool → List (List Run × Bool)
  | [], cur, pending => [(cur, pending)]
  | r :: rest, cur, pending =>
    if r.is_tab then (cur, pending) :: splitSegments rest [] true
    else splitSegments rest (cur ++ [r]) pending

/-- Word loop of the per-segment text layout in `build_tabbed_line`
(lines 334–355): no line breaking, only cursor advancement. -/
def tabSegWords (entry : FontEntry) (run : Run) (effFs spaceW yOff : ℚ)
    (prevWs : Bool) : Nat → List (List Char) → List WordChunk × ℚ → List WordChunk × ℚ
  | _, [], st => st
  | i, w :: ws, (chunks, x) =>
    let ww := wordWidth entry.widths_1000 effFs w
    let x := if ¬chunks.isEmpty ∧ (0 < i ∨ prevWs = true ∨ startsWithWs run.text = true)
      then x + spaceW else x
    tabSegWords entry run effFs spaceW yOff prevWs (i + 1) ws
      (chunks ++ [⟨entry.pdf_name, w, effFs, run.color, x, ww, run.underline,
        run.strikethrough, yOff⟩], x + ww)

/-- Run loop of the per-segment text layout in `build_tabbed_line`. -/
def tabSegRuns (fonts : String → FontEntry) :
    List Run → Bool → List WordChunk × ℚ → List WordChunk × ℚ
  | [], _, st => st
  | run :: rest, prevWs, st =>
    let entry := fonts (fontKey run)
    let effFs := effectiveFontSize run
    let spaceW := entry.widths_1000 0 * effFs / 1000
    let yOff := vertYOffset run
    let st := tabSegWords entry run effFs spaceW yOff prevWs 0 (splitWhitespace run.text) st
    tabSegRuns fonts rest (endsWithWs run.text) st

/-- Leader fill between the previous cursor and the aligned segment start
(`build_tabbed_line` lines 269–320). -/
def leaderChunks (fonts : String → FontEntry) (stops : List TabStop)
    (indentLeft currentX segStart : ℚ) (segRuns : List Run)
    (prevSegs : List (List Run × Bool)) : List WordChunk :=
  let absX := currentX + indentLeft
  match (stops.find? (fun s => absX + 1/2 < s.position)).bind (fun s => s.leader) with
  | none => []
  | some leaderChar =>
    let fontRun := segRuns.head? <|>
      ((prevSegs.reverse.filterMap (fun pr => pr.1.getLast?)).head?)
    match fontRun with
    | none => []
    | some run =>
      let entry := fonts (fontKey run)
      let effFs := effectiveFontSize run
      match (toWinansiBytes [leaderChar]).head? with
      | none => []
      | some byte =>
        if 32 ≤ byte then
          let charW := entry.widths_1000 (byte - 32) * effFs / 1000
          let leaderGap := segStart - currentX
          if 0 < charW ∧ charW * 2 < leaderGap then
            let count := (⌊(leaderGap - charW) / charW⌋).toNat
            if 0 < count then
              let leaderW := (count : ℚ) * charW
              [⟨entry.pdf_name, List.replicate count leaderChar, effFs, run.color,
                segStart - leaderW, leaderW, false, false, 0⟩]
            else []
          else []
        else []

/-- Segment loop of `build_tabbed_line` (lines 246–358): resolve the tab
stop, align the segment start, add leader fill, then lay out the text. -/
def tabbedSegsLoop (fonts : String → FontEntry) (stops : List TabStop)
    (indentLeft : ℚ) : List (List Run × Bool) → Nat → List (List Run × Bool) →
    List WordChunk × ℚ → List WordChunk × ℚ
  | _, _, [], st => st
  | prevSegs, segIdx, (segRuns, tabBefore) :: rest, (chunks, currentX) =>
    let st :=
      if 0 < segIdx then
        let stop := findNextTabStop currentX stops indentLeft
        let tabTarget := stop.position - indentLeft
        let segStart := match stop.alignment with
          | .left => max tabTarget currentX
          | .center => max (tabTarget - segmentWidth fonts segRuns / 2) currentX
          | .right => max (tabTarget - segmentWidth fonts segRuns) currentX
          | .decimal => max (tabTarget - decimalBeforeWidth fonts segRuns) currentX
        let lead := if tabBefore then
            leaderChunks fonts stops indentLeft currentX segStart segRuns prevSegs
          else []
        (chunks ++ lead, segStart)
      else (chunks, currentX)
    let st := tabSegRuns fonts segRuns false st
    tabbedSegsLoop fonts stops indentLeft (prevSegs ++ [(segRuns, tabBefore)])
      (segIdx + 1) rest st

/-- `pdf.rs::build_tabbed_line`: a single logical line for a tab-bearing
paragraph. -/
def buildTabbedLine (runs : List Run) (fonts : String → FontEntry)
    (tab_stops : List TabStop) (indentLeft : ℚ) : List TextLine :=
  let segments := splitSegments runs [] false
  let st := tabbedSegsLoop fonts tab_stops indentLeft [] 0 segments ([], 0)
  [{ chunks := st.1, total_width := totalOf st.1 }]

/-! ## Alignment and justification rendering (src/pdf.rs lines 367–440) -/

/-- A page content-stream drawing operator, at the granularity this core
emits (`pdf_writer::Content` calls in `src/pdf.rs`). -/
inductive POp
  | setFillRgb (r g b : ℚ)
  | setFillGray (g : ℚ)
  | setLineWidth (w : ℚ)
  | saveState
  | restoreState
  | textShow (font : String) (size : ℚ) (x y : ℚ) (bytes : List Nat)
  | fillRect (x y w h : ℚ)
  | strokeRect (x y w h : ℚ)
  | drawImage (name : String) (w h x y : ℚ)
deriving DecidableEq, Repr

/-- The justification condition of `render_paragraph_lines` (line 387):
alignment is justify, the line's global index is not the paragraph's last
line index, and the line has more than one chunk. -/
def lineIsJustified (alignment : Alignment) (totalLineCount firstLineIndex lineNum : Nat)
    (line : TextLine) : Bool :=
  alignment == .justify && (firstLineIndex + lineNum != totalLineCount - 1)
    && decide (1 < line.chunks.length)

/-- Line start x by paragraph alignment (`render_paragraph_lines` line 391). -/
def lineStartX (alignment : Alignment) (marginLeft textWidth : ℚ) (line : TextLine) : ℚ :=
  match alignment with
  | .center => marginLeft + (textWidth - line.total_width) / 2
  | .right => marginLeft + textWidth - line.total_width
  | .left | .justify => marginLeft

/-- Per-gap extra space of a justified line (`render_paragraph_lines`
line 397): slack divided by the chunk count minus one. -/
def extraPerGap (alignment : Alignment) (textWidth : ℚ)
    (totalLineCount firstLineIndex lineNum : Nat) (line : TextLine) : ℚ :=
  if lineIsJustified alignment totalLineCount firstLineIndex lineNum line then
    (textWidth - line.total_width) / ((line.chunks.length - 1 : Nat) : ℚ)
  else 0

/-- Placed x of a chunk (`render_paragraph_lines` line 404):
`line_start_x + chunk.x_offset + chunk_idx as f32 * extra_per_gap`. -/
def chunkXPos (alignment : Alignment) (marginLeft textWidth : ℚ)
    (totalLineCount firstLineIndex lineNum : Nat) (line : TextLine)
    (chunkIdx : Nat) (c : WordChunk) : ℚ :=
  lineStartX alignment marginLeft textWidth line + c.x_offset
    + (chunkIdx : ℚ) * extraPerGap alignment textWidth totalLineCount firstLineIndex lineNum line

/-- Fill-color change operators (`render_paragraph_lines` lines 405–411). -/
def setColorOps (c : Option (Nat × Nat × Nat)) : List POp :=
  match c with
  | some (r, g, b) => [.setFillRgb ((r : ℚ) / 255) ((g : ℚ) / 255) ((b : ℚ) / 255)]
  | none => [.setFillGray 0]

/-- Drawing operators of one chunk: the text show plus optional underline
and strikethrough rectangles (`render_paragraph_lines` lines 413–434). -/
def renderChunkOps (x y : ℚ) (c : WordChunk) : List POp :=
  [.textShow c.pdf_font c.font_size x (y + c.y_offset) (toWinansiBytes c.text)]
  ++ (if c.underline then
      let thick := max (c.font_size * (5/100)) (1/2)
      let ulY := y - c.font_size * (12/100)
      [POp.fillRect x (ulY - thick) c.width thick]
    else [])
  ++ (if c.strikethrough then
      let thick := max (c.font_size * (5/100)) (1/2)
      let stY := y + c.font_size * (30/100)
      [POp.fillRect x stY c.width thick]
    else [])

/-- Chunk loop of `render_paragraph_lines`, threading the current fill
color. -/
def renderLineChunks (alignment : Alignment) (marginLeft textWidth : ℚ)
    (totalLineCount firstLineIndex lineNum : Nat) (line : TextLine) (y : ℚ) :
    Nat → List WordChunk → List POp × Option (Nat × Nat × Nat) →
    List POp × Option (Nat × Nat × Nat)
  | _, [], st => st
  | idx, c :: cs, (ops, cur) =>
    let x := chunkXPos alignment marginLeft textWidth totalLineCount firstLineIndex lineNum line idx c
    let p : List POp × Option (Nat × Nat × Nat) :=
      if c.color ≠ cur then (ops ++ setColorOps c.color, c.color) else (ops, cur)
    renderLineChunks alignment marginLeft textWidth totalLineCount firstLineIndex lineNum line y
      (idx + 1) cs (p.1 ++ renderChunkOps x y c, p.2)

/-- Line loop of `render_paragraph_lines`. -/
def renderLinesLoop (alignment : Alignment) (marginLeft textWidth firstBaselineY linePitch : ℚ)
    (totalLineCount firstLineIndex : Nat) :
    Nat → List TextLine → List POp × Option (Nat × Nat × Nat) →
    List POp × Option (Nat × Nat × Nat)
  | _, [], st => st
  | lineNum, l :: ls, st =>
    let y := firstBaselineY - (lineNum : ℚ) * linePitch
    let st := renderLineChunks alignment marginLeft textWidth totalLineCount firstLineIndex
      lineNum l y 0 l.chunks st
    renderLinesLoop alignment marginLeft textWidth firstBaselineY linePitch totalLineCount
      firstLineIndex (lineNum + 1) ls st

/-- `pdf.rs::render_paragraph_lines` (lines 369–440): emit the drawing
operators for pre-built lines under the paragraph alignment, restoring
black fill at the end if a color was set. -/
def renderParagraphLines (lines : List TextLine) (alignment : Alignment)
    (marginLeft textWidth firstBaselineY linePitch : ℚ)
    (totalLineCount firstLineIndex : Nat) : List POp :=
  let st := renderLinesLoop alignment marginLeft textWidth firstBaselineY linePitch
    totalLineCount firstLineIndex 0 lines ([], none)
  st.1 ++ (if st.2.isSome then [POp.setFillGray 0] else [])

/-! ## Paragraph metrics (src/pdf.rs lines 442–477) -/

/-- `pdf.rs::font_metric`: a metric of the first run's font entry. -/
def fontMetric (runs : List Run) (fonts : String → FontEntry)
    (get : FontEntry → Option ℚ) : Option ℚ :=
  runs.head?.bind (fun r => get (fonts (fontKey r)))

/-- `pdf.rs::tallest_run_metrics`: font size and ratios of the run with
the tallest visual ascent (`font_size * ascender_ratio`, default 0.75). -/
def tallestRunMetrics (runs : List Run) (fonts : String → FontEntry) :
    ℚ × Option ℚ × Option ℚ :=
  let init : ℚ × ℚ × Option ℚ × Option ℚ :=
    ((runs.head?.map (·.font_size)).getD 12, 0, none, none)
  let st := runs.foldl (fun st run =>
    let entry := fonts (fontKey run)
    let ar := entry.ascender_ratio.getD (3/4)
    let ascent := run.font_size * ar
    if st.2.1 < ascent then (run.font_size, ascent, entry.line_h_ratio, entry.ascender_ratio)
    else st) init
  (st.1, st.2.2.1, st.2.2.2)

/-! ## Table layout (src/pdf.rs lines 479–616) -/

def TABLE_CELL_PAD_LEFT : ℚ := 27/5
def TABLE_CELL_PAD_TOP : ℚ := 0
def TABLE_CELL_PAD_BOTTOM : ℚ := 0
def TABLE_BORDER_WIDTH : ℚ := 1/2

/-- Widest word of a run at the run's nominal size (`auto_fit_columns`
lines 509–515; note: `run.font_size`, not the effective size). -/
def runMaxWordWidth (fonts : String → FontEntry) (run : Run) : ℚ :=
  ((splitWhitespace run.text).map
    (fun word => wordWidth (fonts (fontKey run)).widths_1000 run.font_size word)).foldl max 0

/-- Widest unbreakable word of a cell (the `min_widths[ci]` accumulation
of `auto_fit_columns`, restructured per cell; `max` is associative and
commutative and the accumulator starts at 0). -/
def cellMinWidth (fonts : String → FontEntry) (cell : TableCell) : ℚ :=
  (cell.paragraphs.map (fun para => (para.runs.map (runMaxWordWidth fonts)).foldl max 0)).foldl max 0

/-- The per-column minimum widths of `auto_fit_columns` (lines 496–520):
cells at index `ci ≥ ncols` are skipped by the `break`. -/
def colMinWidths (fonts : String → FontEntry) (table : Table) : List ℚ :=
  (List.range table.col_widths.length).map (fun ci =>
    (table.rows.map (fun row => ((row.cells.get? ci).map (cellMinWidth fonts)).getD 0)).foldl max 0)

/-- Total growth needed by columns whose hint is below their minimum
(`extra_needed` accumulation, lines 526–535). -/
def extraNeeded (fonts : String → FontEntry) (table : Table) : ℚ :=
  (List.zipWith (fun w m => max 0 (m - w)) table.col_widths (colMinWidths fonts table)).sum

/-- Total slack of columns above their minimum (`shrinkable` accumulation,
lines 526–535). -/
def shrinkAvail (fonts : String → FontEntry) (table : Table) : ℚ :=
  (List.zipWith (fun w m => max 0 (w - m)) table.col_widths (colMinWidths fonts table)).sum

/-- `pdf.rs::auto_fit_columns` (lines 487–556): grow columns to their
minimum word width, fund the growth by shrinking other columns
proportionally to their slack, then rescale if the total drifted by more
than 0.01pt. -/
def autoFitColumns (fonts : String → FontEntry) (table : Table) : List ℚ :=
  if table.col_widths.isEmpty then table.col_widths
  else
    let mins := colMinWidths fonts table
    let total := table.col_widths.sum
    let widths1 := List.zipWith (fun w m => max w m) table.col_widths mins
    let extra := extraNeeded fonts table
    let shrink := shrinkAvail fonts table
    if 0 < extra ∧ 0 < shrink then
      let factor := min extra shrink / shrink
      let widths2 := List.zipWith (fun w m => if m < w then w - (w - m) * factor else w) widths1 mins
      let newTotal := widths2.sum
      if 1/100 < |newTotal - total| then widths2.map (fun w => w * (total / newTotal)) else widths2
    else widths1

structure RowLayout where
  height : ℚ
  cell_lines : List (List TextLine × ℚ × ℚ)
deriving DecidableEq, Repr

/-- Per-cell layout state of `compute_row_layouts` (lines 578–607):
accumulated lines, first line height and font size, total height. -/
def cellLayout (doc : Document) (fonts : String → FontEntry) (colW : ℚ)
    (cell : TableCell) : List TextLine × ℚ × ℚ × ℚ :=
  cell.paragraphs.foldl (fun st para =>
    let fontSize := (para.runs.head?.map (·.font_size)).getD 12
    let effLs := para.line_spacing.getD doc.line_spacing
    let lineH := ((fontMetric para.runs fonts (·.line_h_ratio)).map
      (fun ratio => fontSize * ratio * effLs)).getD (fontSize * (6/5))
    let st := if st.1.isEmpty then (st.1, lineH, fontSize, st.2.2.2) else st
    if para.runs.isEmpty then st
    else
      let lines := buildParagraphLines para.runs fonts colW
      (st.1 ++ lines, st.2.1, st.2.2.1, st.2.2.2 + (lines.length : ℚ) * lineH))
    ([], 72/5, 12, TABLE_CELL_PAD_TOP + TABLE_CELL_PAD_BOTTOM)

/-- `pdf.rs::compute_row_layouts` (lines 563–616). -/
def computeRowLayouts (table : Table) (colWidths : List ℚ) (doc : Document)
    (fonts : String → FontEntry) : List RowLayout :=
  table.rows.map (fun row =>
    let datas := row.cells.mapIdx (fun ci cell =>
      let colW := (colWidths.get? ci).getD cell.width
      cellLayout doc fonts colW cell)
    { height := (datas.map (fun d => d.2.2.2)).foldl max 0 + TABLE_BORDER_WIDTH,
      cell_lines := datas.map (fun d => (d.1, d.2.1, d.2.2.1)) })

/-! ## Pagination state (src/pdf.rs render, lines 798–1268) -/

abbrev Content := List POp

structure PagState where
  contents : List Content
  current : Content
  slotTop : ℚ
  prevSpaceAfter : ℚ
  imgCount : Nat

/-- The `at_page_top` test of the pagination loop:
`(slot_top - (page_height - margin_top)).abs() < 1.0`. -/
def atPageTop (doc : Document) (slotTop : ℚ) : Prop :=
  |slotTop - (doc.page_height - doc.margin_top)| < 1

instance (doc : Document) (slotTop : ℚ) : Decidable (atPageTop doc slotTop) := by
  unfold atPageTop; infer_instance

/-- Finish the current page: push the content stream and reset the cursor
(`all_contents.push(mem::replace(...)); slot_top = page_height - margin_top`). -/
def pushPage (doc : Document) (st : PagState) : PagState :=
  { st with
    contents := st.contents ++ [st.current], current := [],
    slotTop := doc.page_height - doc.margin_top }

/-- Cell-content loop of `render_table` (lines 652–688). -/
def cellsLoop (fonts : String → FontEntry) (colWidths : List ℚ) (rowTop : ℚ) :
    Nat → List (TableCell × (List TextLine × ℚ × ℚ)) → ℚ → List POp → List POp
  | _, [], _, ops => ops
  | ci, (cell, (lines, lineH, fontSize)) :: rest, cellX, ops =>
    let colW := (colWidths.get? ci).getD cell.width
    let textX := cellX + TABLE_CELL_PAD_LEFT
    let ops := ops ++
      (if ¬lines.isEmpty ∧ ¬(lines.all (fun l => l.chunks.isEmpty)) then
        let firstRun := (cell.paragraphs.head?).bind (fun p => p.runs.head?)
        let ar := (firstRun.bind (fun r => (fonts (fontKey r)).ascender_ratio)).getD (3/4)
        let baselineY := rowTop - TABLE_CELL_PAD_TOP - fontSize * ar
        let alignment := ((cell.paragraphs.head?).map (·.alignment)).getD .left
        renderParagraphLines lines alignment textX colW baselineY lineH lines.length 0
      else [])
    cellsLoop fonts colWidths rowTop (ci + 1) rest (cellX + colW) ops

/-- Border loop of `render_table` (lines 692–705): first column's border
extends left by the pad constant. -/
def borderLoop (colWidths : List ℚ) (rowBottom rowH : ℚ) :
    Nat → List TableCell → ℚ → List POp
  | _, [], _ => []
  | ci, cell :: rest, bx =>
    let colW := (colWidths.get? ci).getD cell.width
    let borderW := if ci = 0 then colW + TABLE_CELL_PAD_LEFT else colW
    POp.strokeRect bx rowBottom borderW rowH
      :: borderLoop colWidths rowBottom rowH (ci + 1) rest (bx + borderW)

/-- One row of `render_table` (lines 632–708): a row that does not fit
moves whole to a new page, except at page top where it is placed anyway. -/
def tableRowStep (doc : Document) (fonts : String → FontEntry) (colWidths : List ℚ)
    (row : TableRow) (layout : RowLayout) (st : PagState) : PagState :=
  let rowH := layout.height
  let st := if ¬ atPageTop doc st.slotTop ∧ st.slotTop - rowH < doc.margin_bottom
    then pushPage doc st else st
  let rowTop := st.slotTop
  let rowBottom := rowTop - rowH
  let ops := cellsLoop fonts colWidths rowTop 0 (row.cells.zip layout.cell_lines)
      doc.margin_left []
    ++ [POp.saveState, POp.setLineWidth TABLE_BORDER_WIDTH]
    ++ borderLoop colWidths rowBottom rowH 0 row.cells (doc.margin_left - TABLE_CELL_PAD_LEFT)
    ++ [POp.restoreState]
  { st with current := st.current ++ ops, slotTop := rowBottom }

/-- `pdf.rs::render_table` (lines 618–709). -/
def tableStep (doc : Document) (fonts : String → FontEntry) (table : Table)
    (st : PagState) : PagState :=
  let colWidths := autoFitColumns fonts table
  let layouts := computeRowLayouts table colWidths doc fonts
  let st := { st with slotTop := st.slotTop - st.prevSpaceAfter }
  (table.rows.zip layouts).foldl
    (fun st rl => tableRowStep doc fonts colWidths rl.1 rl.2 st) st

/-! ## Header/footer compositing (src/pdf.rs lines 711–796, 1176–1224) -/

/-- Field-code substitution of `render_header_footer` (lines 728–766):
a field run's text becomes the decimal page number or page count; every
other attribute is copied; `field_code` is cleared (and `is_tab` is set
false on field runs). -/
def substituteRun (pageNum totalPages : Nat) (run : Run) : Run :=
  match run.field_code with
  | some fc =>
    { text := (match fc with
        | .page => Nat.repr pageNum
        | .numPages => Nat.repr totalPages).data,
      font_size := run.font_size, font_name := run.font_name, bold := run.bold,
      italic := run.italic, underline := run.underline,
      strikethrough := run.strikethrough, color := run.color, is_tab := false,
      vertical_align := run.vertical_align, field_code := none }
  | none => { run with field_code := none }

/-- `pdf.rs::render_header_footer` (lines 711–796). -/
def renderHeaderFooter (fonts : String → FontEntry) (doc : Document)
    (hf : HeaderFooter) (isHeader : Bool) (pageNum totalPages : Nat) : List POp :=
  let textWidth := doc.page_width - doc.margin_left - doc.margin_right
  hf.paragraphs.foldl (fun ops para =>
    if para.runs.isEmpty then ops
    else
      let substitutedRuns := para.runs.map (substituteRun pageNum totalPages)
      let lines := buildParagraphLines substitutedRuns fonts textWidth
      let m := tallestRunMetrics substitutedRuns fonts
      let fontSize := m.1
      let ar := (m.2.2).getD (3/4)
      let baselineY := if isHeader then doc.page_height - doc.header_margin - fontSize * ar
        else doc.footer_margin + fontSize * (1 - ar)
      let effLs := para.line_spacing.getD doc.line_spacing
      let lineH := ((fontMetric substitutedRuns fonts (·.line_h_ratio)).map
        (fun ratio => fontSize * ratio * effLs)).getD (fontSize * (6/5))
      ops ++ renderParagraphLines lines para.alignment doc.margin_left textWidth
        baselineY lineH lines.length 0) []

/-! ## Paragraph pagination (src/pdf.rs lines 917–1157) -/

/-- Outcome of the in-place split attempt. -/
inductive SplitOutcome
  | split (kept deferred : Nat)
  | moveWhole
deriving DecidableEq, Repr

/-- The split decision of the pagination engine (`render` lines 1007–1022):
count the lines that fit the remaining space, clamp so that at least two
lines are deferred, and split only when at least two lines are kept and at
least one is deferred; otherwise the whole paragraph moves. -/
def paragraphSplitOutcome (available firstLineH lineH : ℚ) (numLines : Nat) : SplitOutcome :=
  let fit0 : Nat := if 0 < lineH ∧ firstLineH ≤ available
    then 1 + (⌊(available - firstLineH) / lineH⌋).toNat else 0
  let fit := if 0 < fit0 ∧ numLines - fit0 < 2 then numLines - 2 else fit0
  if 2 ≤ fit ∧ fit < numLines then .split fit (numLines - fit) else .moveWhole

/-- List-label operators (`render` lines 1028–1037 and 1116–1125):
`label_for_run(&para.runs[0], ...)`; the indexing cannot fail where this
is called (the paragraph produced at least one line). -/
def labelOps (fonts : String → FontEntry) (para : Paragraph)
    (fontSize labelX baselineY : ℚ) : List POp :=
  if para.list_label.isEmpty then []
  else match para.runs.head? with
    | some r =>
      [POp.textShow (fonts (fontKey r)).pdf_name fontSize labelX baselineY
        (toWinansiBytes para.list_label)]
    | none => []

/-- The fall-through placement of a paragraph (`render` lines 1081–1157):
zero the gap at the top of a freshly started page, draw the image or
placeholder or the text lines plus list label, draw the bottom border,
advance the cursor.  Touches only `current`, `slotTop`, `prevSpaceAfter`. -/
def paragraphTail (doc : Document) (fonts : String → FontEntry) (para : Paragraph)
    (lines : List TextLine) (contentH fontSize : ℚ) (tallestAr : Option ℚ)
    (lineH interGap0 effSpaceAfter : ℚ) (imgName : Option String)
    (st : PagState) : PagState :=
  let textWidth := doc.page_width - doc.margin_left - doc.margin_right
  let paraTextX := doc.margin_left + para.indent_left
  let paraTextWidth := max (textWidth - para.indent_left) 1
  let labelX := doc.margin_left + max (para.indent_left - para.indent_hanging) 0
  let interGap := if ¬st.contents.isEmpty ∧ atPageTop doc st.slotTop then 0 else interGap0
  let slot1 := st.slotTop - interGap
  let bodyOps :=
    if (para.image.isSome ∨ para.runs.isEmpty) ∧ 0 < para.content_height then
      match para.image, imgName with
      | some img, some name =>
        let yBottom := slot1 - img.display_height
        let x := doc.margin_left + max (textWidth - img.display_width) 0 / 2
        [POp.saveState, POp.drawImage name img.display_width img.display_height x yBottom,
          POp.restoreState]
      | _, _ =>
        [POp.setFillGray (1/2),
          POp.fillRect doc.margin_left (slot1 - contentH) textWidth contentH,
          POp.setFillGray 0]
    else if ¬lines.isEmpty then
      let ar := tallestAr.getD (3/4)
      let baselineY := slot1 - fontSize * ar
      labelOps fonts para fontSize labelX baselineY
        ++ renderParagraphLines lines para.alignment paraTextX paraTextWidth baselineY
          lineH lines.length 0
    else []
  let bdrOps :=
    match para.border_bottom with
    | some bdr =>
      let lineY := slot1 - contentH - bdr.space_pt
      [POp.setFillRgb ((bdr.color.1 : ℚ) / 255) ((bdr.color.2.1 : ℚ) / 255)
          ((bdr.color.2.2 : ℚ) / 255),
        POp.fillRect doc.margin_left (lineY - bdr.width_pt) textWidth bdr.width_pt,
        POp.setFillRgb 0 0 0]
    | none => []
  { st with
    current := st.current ++ bodyOps ++ bdrOps,
    slotTop := slot1 - contentH, prevSpaceAfter := effSpaceAfter }

/-- The split rendering path (`render` lines 1022–1072): render the kept
lines, finish the page, render the deferred lines at the top of the new
page. -/
def paragraphSplitRender (doc : Document) (fonts : String → FontEntry)
    (para : Paragraph) (lines : List TextLine) (kept : Nat) (fontSize : ℚ)
    (tallestAr : Option ℚ) (lineH interGap effSpaceAfter : ℚ)
    (st : PagState) : PagState :=
  let textWidth := doc.page_width - doc.margin_left - doc.margin_right
  let paraTextX := doc.margin_left + para.indent_left
  let paraTextWidth := max (textWidth - para.indent_left) 1
  let labelX := doc.margin_left + max (para.indent_left - para.indent_hanging) 0
  let slot1 := st.slotTop - interGap
  let ar := tallestAr.getD (3/4)
  let baselineY := slot1 - fontSize * ar
  let firstPart := lines.take kept
  let ops1 := labelOps fonts para fontSize labelX baselineY
    ++ renderParagraphLines firstPart para.alignment paraTextX paraTextWidth baselineY
      lineH lines.length 0
  let st := pushPage doc { st with current := st.current ++ ops1, slotTop := slot1 }
  let rest := lines.drop kept
  let restContentH := (rest.length : ℚ) * lineH
  let baselineY2 := st.slotTop - fontSize * ar
  let ops2 := renderParagraphLines rest para.alignment paraTextX paraTextWidth baselineY2
    lineH lines.length kept
  { st with
    current := st.current ++ ops2, slotTop := st.slotTop - restContentH,
    prevSpaceAfter := effSpaceAfter }

/-- One paragraph of the pagination loop (`render` lines 919–1157). -/
def paragraphStep (doc : Document) (fonts : String → FontEntry) (para : Paragraph)
    (prevPara nextPara : Option Paragraph) (imgName : Option String)
    (st : PagState) : PagState :=
  let st :=
    if para.page_break_before then
      let st := if ¬ atPageTop doc st.slotTop then pushPage doc st else st
      { st with prevSpaceAfter := 0 }
    else st
  if para.page_break_before ∧
      (para.runs.isEmpty ∨ para.runs.all (fun r => r.is_tab ∨ r.text.isEmpty)) then st
  else
    let textWidth := doc.page_width - doc.margin_left - doc.margin_right
    let effSpaceBefore :=
      if para.contextual_spacing ∧ (prevPara.map (·.contextual_spacing)).getD false then 0
      else para.space_before
    let effSpaceAfter :=
      if para.contextual_spacing ∧ (nextPara.map (·.contextual_spacing)).getD false then 0
      else para.space_after
    let interGap := max st.prevSpaceAfter effSpaceBefore
    let m := tallestRunMetrics para.runs fonts
    let fontSize := m.1
    let tallestLhr := m.2.1
    let tallestAr := m.2.2
    let effLs := para.line_spacing.getD doc.line_spacing
    let lineH := (tallestLhr.map (fun ratio => fontSize * ratio * effLs)).getD (fontSize * (6/5))
    let paraTextWidth := max (textWidth - para.indent_left) 1
    let hasTabs := para.runs.any (·.is_tab)
    let lines := if para.image.isSome ∨ para.runs.isEmpty then []
      else if hasTabs then buildTabbedLine para.runs fonts para.tab_stops para.indent_left
      else buildParagraphLines para.runs fonts paraTextWidth
    let contentH := if para.image.isSome ∨ para.runs.isEmpty
      then max para.content_height doc.line_pitch
      else (lines.length : ℚ) * lineH
    let needed := interGap + contentH
    let keepNextExtra := if para.keep_next then
        (nextPara.map (fun next =>
          let nm := tallestRunMetrics next.runs fonts
          let nextInter := max effSpaceAfter next.space_before
          let nextFirstLineH := ((nm.2.1).map (fun ratio => nm.1 * ratio)).getD (nm.1 * (6/5))
          nextInter + nextFirstLineH)).getD 0
      else 0
    if ¬ atPageTop doc st.slotTop ∧ st.slotTop - needed - keepNextExtra < doc.margin_bottom then
      let available := st.slotTop - interGap - doc.margin_bottom
      let firstLineH := (tallestLhr.map (fun ratio => fontSize * ratio)).getD fontSize
      match paragraphSplitOutcome available firstLineH lineH lines.length with
      | .split kept _ =>
        paragraphSplitRender doc fonts para lines kept fontSize tallestAr lineH interGap
          effSpaceAfter st
      | .moveWhole =>
        paragraphTail doc fonts para lines contentH fontSize tallestAr lineH 0
          effSpaceAfter imgName (pushPage doc st)
    else
      paragraphTail doc fonts para lines contentH fontSize tallestAr lineH interGap
        effSpaceAfter imgName st

/-- The block loop of `render` (lines 917–1173), threading the previous
paragraph (for contextual spacing) and looking ahead to the next block. -/
def blocksLoop (doc : Document) (fonts : String → FontEntry) :
    Option Paragraph → List Block → PagState → PagState
  | _, [], st => st
  | prevPara, b :: rest, st =>
    let nextPara := match rest.head? with
      | some (.paragraph p) => some p
      | _ => none
    match b with
    | .paragraph para =>
      let reg : Option String × Nat := if para.image.isSome
        then (some ("Im" ++ toString (st.imgCount + 1)), st.imgCount + 1)
        else (none, st.imgCount)
      let st := paragraphStep doc fonts para prevPara nextPara reg.1
        { st with imgCount := reg.2 }
      blocksLoop doc fonts (some para) rest st
    | .table t =>
      let st := tableStep doc fonts t st
      blocksLoop doc fonts none rest { st with prevSpaceAfter := 0 }

/-! ## Top-level render (src/pdf.rs lines 798–1268, src/error.rs, src/lib.rs) -/

/-- All runs of the document in registration order (`render` lines
814–844): body blocks first, then header/footer variants. -/
def allDocRuns (doc : Document) : List Run :=
  (doc.blocks.flatMap (fun b => match b with
    | .paragraph p => p.runs
    | .table t => t.rows.flatMap (fun row => row.cells.flatMap (fun cell =>
        cell.paragraphs.flatMap (·.runs)))))
  ++ (([doc.header_default, doc.header_first, doc.footer_default,
        doc.footer_first].filterMap id).flatMap (fun hf => hf.paragraphs.flatMap (·.runs)))

/-- Font registration loop of `render` (lines 846–863): first-seen order,
PDF resource names `F1`, `F2`, ….  The filesystem-dependent metric
resolution of `fonts.rs::register_font` is abstracted by `resolve`. -/
def registerLoop (resolve : String → Bool → Bool → FontMetrics) :
    List Run → List (String × FontEntry) → List (String × FontEntry)
  | [], acc => acc
  | run :: rest, acc =>
    let key := fontKey run
    if (acc.map (·.1)).contains key then registerLoop resolve rest acc
    else
      let base := primaryFontName run.font_name
      let pdfName := "F" ++ toString (acc.length + 1)
      let metrics := resolve base run.bold run.italic
      registerLoop resolve rest
        (acc ++ [(key, ⟨pdfName, metrics.widths_1000, metrics.line_h_ratio,
          metrics.ascender_ratio⟩)])

/-- The registered font list, with the Helvetica fallback of `render`
lines 865–878 when no run used any font. -/
def seenFontsList (resolve : String → Bool → Bool → FontMetrics)
    (doc : Document) : List (String × FontEntry) :=
  let l := registerLoop resolve (allDocRuns doc) []
  if l.isEmpty then
    let metrics := resolve "Helvetica" false false
    [("Helvetica", ⟨"F1", metrics.widths_1000, metrics.line_h_ratio,
      metrics.ascender_ratio⟩)]
  else l

/-- Total lookup over the registered fonts.  The Rust code unwraps the
`HashMap` lookup with `expect("font registered")`; every key reaching
layout is registered in phase 1, so the default entry is unreachable. -/
def lookupFont (l : List (String × FontEntry)) (key : String) : FontEntry :=
  ((l.find? (fun p => p.1 = key)).map (·.2)).getD ⟨"F0", fun _ => 0, none, none⟩

/-- Header/footer overlay pass of `render` (lines 1176–1224): after the
page count is known, append header and footer operators to every page. -/
def hfPass (doc : Document) (fonts : String → FontEntry)
    (contents : List Content) : List Content :=
  let totalPages := contents.length
  if doc.header_default.isSome ∨ doc.header_first.isSome ∨ doc.footer_default.isSome
      ∨ doc.footer_first.isSome then
    contents.mapIdx (fun pageIdx c =>
      let isFirst := pageIdx = 0
      let pageNum := pageIdx + 1
      let header := if isFirst ∧ doc.different_first_page then doc.header_first
        else doc.header_default
      let c := match header with
        | some hf => c ++ renderHeaderFooter fonts doc hf true pageNum totalPages
        | none => c
      let footer := if isFirst ∧ doc.different_first_page then doc.footer_first
        else doc.footer_default
      match footer with
      | some hf => c ++ renderHeaderFooter fonts doc hf false pageNum totalPages
      | none => c)
  else contents

/-- The observable output of `pdf.rs::render`: the per-page content
streams, the font resources (keys and PDF names in registration order),
and the page-tree count (`pages.count(n)` with `n = all_contents.len()`). -/
structure RenderOut where
  contents : List Content
  fontKeys : List String
  fontPdfNames : List String
  pageTreeCount : Nat

/-- `pdf.rs::render` (lines 798–1268): register fonts, paginate blocks,
always push the final page, composit headers/footers, count pages. -/
def render (resolve : String → Bool → Bool → FontMetrics) (doc : Document) : RenderOut :=
  let seen := seenFontsList resolve doc
  let fonts := lookupFont seen
  let st0 : PagState :=
    { contents := [], current := [],
      slotTop := doc.page_height - doc.margin_top, prevSpaceAfter := 0, imgCount := 0 }
  let stFin := blocksLoop doc fonts none doc.blocks st0
  let contents := hfPass doc fonts (stFin.contents ++ [stFin.current])
  { contents := contents,
    fontKeys := seen.map (·.1),
    fontPdfNames := seen.map (fun p => p.2.pdf_name),
    pageTreeCount := contents.length }

/-- The typed error of `src/error.rs`. -/
inductive RustError
  | invalidDocx (reason : String)
  | zipError
  | xmlError
  | pdfError (reason : String)
  | ioError
deriving DecidableEq, Repr

/-- The `Result<Vec<u8>, Error>` shape of `pdf.rs::render`: the function
body constructs no error and ends in `Ok(pdf.finish())`. -/
def renderResult (resolve : String → Bool → Bool → FontMetrics)
    (doc : Document) : Except RustError RenderOut :=
  .ok (render resolve doc)

/-! ## Concrete fixtures used by counterexamples and witnesses -/

/-- A constant font entry: every WinAnsi glyph advance is 500/1000 em. -/
def cFont500 : FontEntry :=
  { pdf_name := "F1", widths_1000 := fun _ => 500,
    line_h_ratio := some (115/100), ascender_ratio := some (4/5) }

def cFonts500 : String → FontEntry := fun _ => cFont500

/-- A plain 12pt run with the given text. -/
def mkRun (t : List Char) : Run :=
  { text := t, font_size := 12, font_name := "Arial", bold := false,
    italic := false, underline := false, strikethrough := false, color := none,
    is_tab := false, vertical_align := .baseline, field_code := none }

/-- An empty document with non-positive page dimensions: structurally
invalid per the spec's taxonomy, yet rendered without error by the code. -/
def docNoValidation : Document :=
  { page_width := 0, page_height := 0, margin_top := 0, margin_bottom := 0,
    margin_left := 0, margin_right := 0, header_margin := 0, footer_margin := 0,
    line_pitch := 0, line_spacing := 1, blocks := [],
    header_default := none, header_first := none, footer_default := none,
    footer_first := none, different_first_page := false }

/-- A trivial metric oracle (glyphs 500/1000 em, no ratios). -/
def cResolve : String → Bool → Bool → FontMetrics :=
  fun _ _ _ => { widths_1000 := fun _ => 500, line_h_ratio := none, ascender_ratio := none }

/-! ## C1 — widow/orphan control of the paragraph split -/

/-- C1: for a paragraph that does not fit the remaining space, the split
decision of `render` (lines 1006–1077) either splits with at least two
lines kept on the current page and at least two deferred to the next page
(and the two parts exhaust the paragraph), or performs no split, in which
case the whole paragraph moves to a new page (`moveWhole` is the branch
that pushes the page at lines 1075–1077). -/
theorem c1_split_kept_deferred_at_least_two
    (available firstLineH lineH : ℚ) (numLines : Nat) :
    (∃ kept deferred,
        paragraphSplitOutcome available firstLineH lineH numLines = .split kept deferred
        ∧ 2 ≤ kept ∧ 2 ≤ deferred ∧ kept + deferred = numLines)
    ∨ paragraphSplitOutcome available firstLineH lineH numLines = .moveWhole := by
  simp only [paragraphSplitOutcome]
  generalize (if 0 < lineH ∧ firstLineH ≤ available then
    1 + (⌊(available - firstLineH) / lineH⌋).toNat else 0) = f0
  by_cases h1 : 0 < f0 ∧ numLines - f0 < 2
  · rw [if_pos h1]
    by_cases h2 : 2 ≤ numLines - 2 ∧ numLines - 2 < numLines
    · rw [if_pos h2]
      exact Or.inl ⟨numLines - 2, numLines - (numLines - 2), rfl, h2.1, by omega, by omega⟩
    · rw [if_neg h2]; exact Or.inr rfl
  · rw [if_neg h1]
    by_cases h2 : 2 ≤ f0 ∧ f0 < numLines
    · rw [if_pos h2]
      exact Or.inl ⟨f0, numLines - f0, rfl, h2.1, by omega, by omega⟩
    · rw [if_neg h2]; exact Or.inr rfl

/-! ## C4 — wrapping with no words yields exactly one empty line -/

/-- The run loop leaves the line accumulator untouched when every run is
a tab run or produces no words. -/
theorem runsLoop_no_words (fonts : String → FontEntry) (maxWidth : ℚ) :
    ∀ (runs : List Run) (acc : LineAcc) (pws : Bool) (psw : ℚ),
      (∀ r ∈ runs, r.is_tab = true ∨ splitWhitespace r.text = []) →
      (runsLoop fonts maxWidth runs (acc, pws, psw)).1 = acc := by
  intro runs
  induction runs with
  | nil => intro acc pws psw _; rfl
  | cons run rest ih =>
    intro acc pws psw h
    rcases h run (List.mem_cons_self _ _) with htab | hwords
    · simp only [runsLoop, htab, if_true, reduceIte]
      exact ih acc pws psw (fun r hr => h r (List.mem_cons_of_mem _ hr))
    · simp only [runsLoop]
      by_cases htab : run.is_tab
      · simp only [htab, if_true, reduceIte]
        exact ih acc pws psw (fun r hr => h r (List.mem_cons_of_mem _ hr))
      · simp only [htab, if_false, reduceIte, hwords, runWordsLoop]
        exact ih acc _ _ (fun r hr => h r (List.mem_cons_of_mem _ hr))

/-- C4: word-wrapping a run list that produces no words (in particular the
empty run list) at any width returns exactly one line with zero chunks and
zero total width — never zero lines. -/
theorem c4_no_words_one_empty_line (fonts : String → FontEntry) (maxWidth : ℚ)
    (runs : List Run)
    (h : ∀ r ∈ runs, r.is_tab = true ∨ splitWhitespace r.text = []) :
    buildParagraphLines runs fonts maxWidth = [{ chunks := [], total_width := 0 }] := by
  have hz : (runsLoop fonts maxWidth runs (⟨[], [], 0⟩, false, 0)).1 = ⟨[], [], 0⟩ :=
    runsLoop_no_words fonts maxWidth runs _ false 0 h
  simp only [buildParagraphLines]
  rw [hz]
  rfl

/-- Witness for C4 at the empty run list. -/
theorem c4_witness :
    buildParagraphLines [] cFonts500 250 = [{ chunks := [], total_width := 0 }] :=
  c4_no_words_one_empty_line cFonts500 250 [] (by intro r hr; cases hr)

/-! ## C9 — header/footer field-code substitution -/

/-- C9: substituting a page-number or page-count field run replaces its
text with the literal decimal string for the page number (or total page
count) and preserves the font name, size, bold, italic, underline,
strikethrough, color, and vertical alignment of the run
(`render_header_footer`, lines 728–766). -/
theorem c9_field_code_substitution (pageNum totalPages : Nat) (run : Run)
    (fc : FieldCode) (h : run.field_code = some fc) :
    (substituteRun pageNum totalPages run).text
      = (match fc with
          | .page => Nat.repr pageNum
          | .numPages => Nat.repr totalPages).data
    ∧ (substituteRun pageNum totalPages run).font_name = run.font_name
    ∧ (substituteRun pageNum totalPages run).font_size = run.font_size
    ∧ (substituteRun pageNum totalPages run).bold = run.bold
    ∧ (substituteRun pageNum totalPages run).italic = run.italic
    ∧ (substituteRun pageNum totalPages run).underline = run.underline
    ∧ (substituteRun pageNum totalPages run).strikethrough = run.strikethrough
    ∧ (substituteRun pageNum totalPages run).color = run.color
    ∧ (substituteRun pageNum totalPages run).vertical_align = run.vertical_align := by
  simp [substituteRun, h]

/-- Witness for C9: a page-number field run on page 3 of a 7-page document
renders literal text "3" and keeps its attributes. -/
theorem c9_witness :
    (substituteRun 3 7 { mkRun [] with field_code := some .page }).text = ['3']
    ∧ (substituteRun 3 7 { mkRun [] with field_code := some .page }).font_name
        = ({ mkRun [] with field_code := some .page } : Run).font_name := by
  have h := c9_field_code_substitution 3 7 { mkRun [] with field_code := some .page }
    .page rfl
  exact ⟨h.1, h.2.1⟩

/-! ## C3 — justification condition and even gap distribution -/

/-- C3: a line is rendered justified iff the paragraph alignment is
justify, the line's global index (first line index of the rendered slice
plus the line number, which counts across a page split) is not the
paragraph's last line index, and the line has more than one chunk; when
justified, the `N−1` gap increments are all equal to the line's slack
divided by `N−1`, so consecutive placed chunks are separated by their
layout gap plus exactly that amount. -/
theorem c3_justified_iff_and_even_gaps (alignment : Alignment)
    (marginLeft textWidth : ℚ) (totalLineCount firstLineIndex lineNum : Nat)
    (line : TextLine) :
    (lineIsJustified alignment totalLineCount firstLineIndex lineNum line = true
      ↔ (alignment = .justify ∧ firstLineIndex + lineNum ≠ totalLineCount - 1
          ∧ 1 < line.chunks.length))
    ∧ (lineIsJustified alignment totalLineCount firstLineIndex lineNum line = true →
        ((line.chunks.length - 1 : Nat) : ℚ)
            * extraPerGap alignment textWidth totalLineCount firstLineIndex lineNum line
          = textWidth - line.total_width)
    ∧ (∀ i ci cj, line.chunks.get? i = some ci → line.chunks.get? (i + 1) = some cj →
        chunkXPos alignment marginLeft textWidth totalLineCount firstLineIndex lineNum
            line (i + 1) cj
          - chunkXPos alignment marginLeft textWidth totalLineCount firstLineIndex lineNum
            line i ci
        = (cj.x_offset - ci.x_offset)
          + extraPerGap alignment textWidth totalLineCount firstLineIndex lineNum line) := by
  have hiff : lineIsJustified alignment totalLineCount firstLineIndex lineNum line = true
      ↔ (alignment = .justify ∧ firstLineIndex + lineNum ≠ totalLineCount - 1
          ∧ 1 < line.chunks.length) := by
    simp [lineIsJustified, and_assoc]
  refine ⟨hiff, ?_, ?_⟩
  · intro hj
    have hlen : 1 < line.chunks.length := (hiff.mp hj).2.2
    have hne : ((line.chunks.length - 1 : Nat) : ℚ) ≠ 0 :=
      Nat.cast_ne_zero.mpr (by omega)
    rw [extraPerGap, if_pos hj, mul_comm, div_mul_cancel₀ _ hne]
  · intro i ci cj _ _
    simp only [chunkXPos]
    push_cast
    ring

/-- Fixtures for the C3 witness: a justified two-chunk line. -/
def wChunkA : WordChunk :=
  { pdf_font := "F1", text := ['H', 'i'], font_size := 12, color := none,
    x_offset := 0, width := 30, underline := false, strikethrough := false,
    y_offset := 0 }

def wChunkB : WordChunk :=
  { pdf_font := "F1", text := ['y', 'o'], font_size := 12, color := none,
    x_offset := 36, width := 30, underline := false, strikethrough := false,
    y_offset := 0 }

def wLine : TextLine := { chunks := [wChunkA, wChunkB], total_width := 66 }

/-- Witness for C3: a two-chunk non-final line of a justified paragraph is
justified and its single gap receives the whole slack. -/
theorem c3_witness :
    lineIsJustified .justify 5 0 0 wLine = true
    ∧ ((wLine.chunks.length - 1 : Nat) : ℚ) * extraPerGap .justify 100 5 0 0 wLine
        = 100 - wLine.total_width
    ∧ chunkXPos .justify 10 100 5 0 0 wLine 1 wChunkB
        - chunkXPos .justify 10 100 5 0 0 wLine 0 wChunkA
      = (wChunkB.x_offset - wChunkA.x_offset) + extraPerGap .justify 100 5 0 0 wLine := by
  have h := c3_justified_iff_and_even_gaps .justify 10 100 5 0 0 wLine
  have hj : lineIsJustified .justify 5 0 0 wLine = true := by decide
  exact ⟨hj, h.2.1 hj, h.2.2 0 wChunkA wChunkB rfl rfl⟩

/-! ## C8 — no infinite loop: page-top content is placed, overflowing -/

/-- `paragraphTail` touches only the current page, never the pushed list. -/
theorem paragraphTail_contents (doc : Document) (fonts : String → FontEntry)
    (para : Paragraph) (lines : List TextLine) (contentH fontSize : ℚ)
    (tallestAr : Option ℚ) (lineH interGap0 effSpaceAfter : ℚ)
    (imgName : Option String) (st : PagState) :
    (paragraphTail doc fonts para lines contentH fontSize tallestAr lineH interGap0
      effSpaceAfter imgName st).contents = st.contents := rfl

/-- A table row whose state is at page top is placed on the current page
with no new page started, and the cursor advances past it (below the
bottom margin if the row is taller than the usable height). -/
theorem tableRowStep_at_top (doc : Document) (fonts : String → FontEntry)
    (colWidths : List ℚ) (row : TableRow) (layout : RowLayout) (st : PagState)
    (h : atPageTop doc st.slotTop) :
    (tableRowStep doc fonts colWidths row layout st).contents = st.contents
    ∧ (tableRowStep doc fonts colWidths row layout st).slotTop
        = st.slotTop - layout.height := by
  have hc : ¬(¬ atPageTop doc st.slotTop ∧ st.slotTop - layout.height < doc.margin_bottom) :=
    fun hh => hh.1 h
  rw [tableRowStep, if_neg hc]
  exact ⟨rfl, rfl⟩

/-- Each row adds at most one page. -/
theorem tableRowStep_contents_le (doc : Document) (fonts : String → FontEntry)
    (colWidths : List ℚ) (row : TableRow) (layout : RowLayout) (st : PagState) :
    (tableRowStep doc fonts colWidths row layout st).contents.length
      ≤ st.contents.length + 1 := by
  rw [tableRowStep]
  by_cases hc : ¬ atPageTop doc st.slotTop ∧ st.slotTop - layout.height < doc.margin_bottom
  · rw [if_pos hc]; simp [pushPage]
  · rw [if_neg hc]; simp

/-- The row fold of `render_table` pushes at most one page per row. -/
theorem tableFold_contents_le (doc : Document) (fonts : String → FontEntry)
    (colWidths : List ℚ) :
    ∀ (l : List (TableRow × RowLayout)) (st : PagState),
      ((l.foldl (fun st rl => tableRowStep doc fonts colWidths rl.1 rl.2 st)
        st).contents.length) ≤ st.contents.length + l.length := by
  intro l
  induction l with
  | nil => intro st; simp
  | cons x xs ih =>
    intro st
    have h1 := ih (tableRowStep doc fonts colWidths x.1 x.2 st)
    have h2 := tableRowStep_contents_le doc fonts colWidths x.1 x.2 st
    simp only [List.foldl_cons, List.length_cons]
    omega

/-- A whole table pushes at most one page per row (so the row loop cannot
loop forever re-deferring a row). -/
theorem tableStep_contents_le (doc : Document) (fonts : String → FontEntry)
    (table : Table) (st : PagState) :
    (tableStep doc fonts table st).contents.length
      ≤ st.contents.length + table.rows.length := by
  rw [tableStep]
  have h := tableFold_contents_le doc fonts (autoFitColumns fonts table)
    (table.rows.zip (computeRowLayouts table (autoFitColumns fonts table) doc fonts))
    { st with slotTop := st.slotTop - st.prevSpaceAfter }
  have hz : (table.rows.zip
      (computeRowLayouts table (autoFitColumns fonts table) doc fonts)).length
      ≤ table.rows.length := by
    rw [List.length_zip]; omega
  simp only at h
  omega

/-- A paragraph processed at page top never pushes a page: its content is
placed on the current page (possibly overflowing the bottom margin). -/
theorem paragraphStep_contents_at_top (doc : Document) (fonts : String → FontEntry)
    (para : Paragraph) (prevPara nextPara : Option Paragraph)
    (imgName : Option String) (st : PagState) (h : atPageTop doc st.slotTop) :
    (paragraphStep doc fonts para prevPara nextPara imgName st).contents
      = st.contents := by
  simp [paragraphStep, h, apply_ite PagState.contents, apply_ite PagState.slotTop,
    apply_ite PagState.prevSpaceAfter, paragraphTail_contents]

/-- C8: pagination cannot loop or drop content on oversized rows or
paragraphs: (a) a table row at the top of a fresh page is placed there with
no new page, the cursor moving down by the full row height even when that
overflows the bottom margin; (b) a table pushes at most one page per row;
(c) a paragraph at the top of a fresh page is placed without starting a new
page.  (The pagination pass itself is a single structural fold over blocks
and rows, hence terminating.) -/
theorem c8_page_top_overflow_placement :
    (∀ (doc : Document) (fonts : String → FontEntry) (colWidths : List ℚ)
        (row : TableRow) (layout : RowLayout) (st : PagState),
        atPageTop doc st.slotTop →
        (tableRowStep doc fonts colWidths row layout st).contents = st.contents
        ∧ (tableRowStep doc fonts colWidths row layout st).slotTop
            = st.slotTop - layout.height)
    ∧ (∀ (doc : Document) (fonts : String → FontEntry) (table : Table) (st : PagState),
        (tableStep doc fonts table st).contents.length
          ≤ st.contents.length + table.rows.length)
    ∧ (∀ (doc : Document) (fonts : String → FontEntry) (para : Paragraph)
        (prevPara nextPara : Option Paragraph) (imgName : Option String) (st : PagState),
        atPageTop doc st.slotTop →
        (paragraphStep doc fonts para prevPara nextPara imgName st).contents
          = st.contents) :=
  ⟨fun doc fonts colWidths row layout st h =>
      tableRowStep_at_top doc fonts colWidths row layout st h,
    fun doc fonts table st => tableStep_contents_le doc fonts table st,
    fun doc fonts para prevPara nextPara imgName st h =>
      paragraphStep_contents_at_top doc fonts para prevPara nextPara imgName st h⟩

/-- A letter-size document with no blocks and no headers/footers. -/
def wDoc : Document :=
  { page_width := 612, page_height := 792, margin_top := 72, margin_bottom := 72,
    margin_left := 72, margin_right := 72, header_margin := 36, footer_margin := 36,
    line_pitch := 14, line_spacing := 1, blocks := [],
    header_default := none, header_first := none, footer_default := none,
    footer_first := none, different_first_page := false }

/-- A pagination state sitting exactly at the top of a fresh page of `wDoc`. -/
def wState : PagState :=
  { contents := [[]], current := [], slotTop := 720, prevSpaceAfter := 0, imgCount := 0 }

/-- A row layout far taller than `wDoc`'s usable height (720pt). -/
def wRowLayout : RowLayout := { height := 10000, cell_lines := [] }

/-- A five-word plain paragraph. -/
def wPara : Paragraph :=
  { runs := [mkRun ['o', 'v', 'e', 'r', 'f', 'l', 'o', 'w']], space_before := 0,
    space_after := 0, content_height := 0, alignment := .left, indent_left := 0,
    indent_hanging := 0, list_label := [], contextual_spacing := false,
    keep_next := false, line_spacing := none, image := none, border_bottom := none,
    page_break_before := false, tab_stops := [] }

/-- Witness for C8: at page top, a 10000pt-tall row is placed on the
current page (cursor overflows the 72pt bottom margin) and a paragraph
starts no new page. -/
theorem c8_witness :
    (tableRowStep wDoc cFonts500 [] ⟨[]⟩ wRowLayout wState).contents = wState.contents
    ∧ (tableRowStep wDoc cFonts500 [] ⟨[]⟩ wRowLayout wState).slotTop
        = wState.slotTop - wRowLayout.height
    ∧ (paragraphStep wDoc cFonts500 wPara none none none wState).contents
        = wState.contents := by
  have htop : atPageTop wDoc wState.slotTop := by
    norm_num [atPageTop, wDoc, wState]
  have h := c8_page_top_overflow_placement
  exact ⟨(h.1 wDoc cFonts500 [] ⟨[]⟩ wRowLayout wState htop).1,
    (h.1 wDoc cFonts500 [] ⟨[]⟩ wRowLayout wState htop).2,
    h.2.2 wDoc cFonts500 wPara none none none wState htop⟩

/-! ## C7 — the renderer performs no structural validation -/

/-- C7 counterexample: a structurally invalid document — empty block list
and non-positive page dimensions — is rendered successfully by
`pdf.rs::render` (whose body constructs no error), contradicting the claim
that the conversion fails with a typed error on such input. -/
theorem c7_counterexample_invalid_doc_renders_ok :
    (renderResult cResolve docNoValidation).isOk = true
    ∧ docNoValidation.blocks = []
    ∧ docNoValidation.page_width ≤ 0 :=
  ⟨rfl, rfl, by norm_num [docNoValidation]⟩

/-- The header/footer overlay keeps the page count. -/
theorem hfPass_length (doc : Document) (fonts : String → FontEntry)
    (cs : List Content) : (hfPass doc fonts cs).length = cs.length := by
  rw [hfPass]
  split_ifs with h
  · simp
  · rfl

/-- `render` always produces at least one page. -/
theorem render_pages_pos (resolve : String → Bool → Bool → FontMetrics)
    (doc : Document) : 1 ≤ (render resolve doc).contents.length := by
  show 1 ≤ (hfPass doc _ ((blocksLoop doc _ none doc.blocks _).contents
    ++ [(blocksLoop doc _ none doc.blocks _).current])).length
  rw [hfPass_length]
  simp

/-- C7 amended: `render` never fails — for every document (including
structurally invalid ones) it returns `Ok` with a complete, at least
one-page output, so no partial PDF is ever emitted by the renderer; typed
errors can arise only from DOCX container parsing, before any output. -/
theorem c7_amended_render_never_fails (resolve : String → Bool → Bool → FontMetrics)
    (doc : Document) :
    ∃ out, renderResult resolve doc = .ok out ∧ 1 ≤ out.contents.length :=
  ⟨render resolve doc, rfl, render_pages_pos resolve doc⟩

/-! ## C10 — one page minimum, empty-document shape, page-tree count -/

/-- C10: `render` succeeds on every document with at least one page and a
page-tree count equal to the number of emitted content streams; a document
with no blocks and no headers/footers produces exactly one page with an
empty content stream and the single fallback Helvetica font resource named
`F1`. -/
theorem c10_render_pages_count_and_fallback
    (resolve : String → Bool → Bool → FontMetrics) (doc : Document) :
    1 ≤ (render resolve doc).contents.length
    ∧ (render resolve doc).pageTreeCount = (render resolve doc).contents.length
    ∧ (doc.blocks = [] → doc.header_default = none → doc.header_first = none →
        doc.footer_default = none → doc.footer_first = none →
        (render resolve doc).contents = [[]]
        ∧ (render resolve doc).fontKeys = ["Helvetica"]
        ∧ (render resolve doc).fontPdfNames = ["F1"]) := by
  refine ⟨render_pages_pos resolve doc, rfl, ?_⟩
  intro h1 h2 h3 h4 h5
  simp [render, allDocRuns, seenFontsList, registerLoop, blocksLoop, hfPass,
    h1, h2, h3, h4, h5]

/-- Witness for C10 at a concrete empty letter-size document. -/
theorem c10_witness :
    (render cResolve wDoc).contents = [[]]
    ∧ (render cResolve wDoc).fontKeys = ["Helvetica"]
    ∧ (render cResolve wDoc).fontPdfNames = ["F1"] :=
  (c10_render_pages_count_and_fallback cResolve wDoc).2.2 rfl rfl rfl rfl rfl

/-! ## C6 — WinAnsi narrowing of width sums and emitted bytes -/

/-- A run whose word contains the ASCII control character BEL (7). -/
def ctrlRun : Run := mkRun ['a', Char.ofNat 7, 'b']

/-- C6 counterexample: the word "a\x07b" (BEL = codepoint 7, outside the
WinAnsi range 32–255) is excluded from the width sum, but the byte 7 is
NOT excluded from the bytes emitted into the content stream: the rendered
text-show operator carries `[97, 7, 98]`.  This contradicts the claim that
such characters are excluded from both. -/
theorem c6_counterexample_control_char_emitted :
    renderParagraphLines (buildParagraphLines [ctrlRun] cFonts500 1000)
        Alignment.left 0 1000 100 14 1 0
      = [POp.textShow "F1" 12 0 100 [97, 7, 98]]
    ∧ (7 : Nat) < 32
    ∧ wordWidth (fun _ => 500) 12 ['a', Char.ofNat 7, 'b']
        = wordWidth (fun _ => 500) 12 ['a', 'b'] := by
  have hlines : buildParagraphLines [ctrlRun] cFonts500 1000
      = [⟨[⟨"F1", ['a', Char.ofNat 7, 'b'], 12, none, 0, 12, false, false, 0⟩], 12⟩] := by
    norm_num +decide [List.filterMap_cons, List.filter_cons, buildParagraphLines,
      runsLoop, runWordsLoop, stepWord, finishLine, totalOf, splitWhitespace,
      splitWsGo, rustIsWhitespace, startsWithWs, endsWithWs, wordWidth,
      toWinansiBytes, winAnsiByte, effectiveFontSize, vertYOffset, fontKey,
      primaryFontName, cFonts500, cFont500, ctrlRun, mkRun]
  refine ⟨?_, by norm_num, ?_⟩
  · rw [hlines]
    norm_num +decide [List.filterMap_cons, renderParagraphLines, renderLinesLoop,
      renderLineChunks, renderChunkOps, chunkXPos, lineStartX, extraPerGap,
      lineIsJustified, setColorOps, toWinansiBytes, winAnsiByte]
  · norm_num +decide [List.filterMap_cons, List.filter_cons, wordWidth,
      toWinansiBytes, winAnsiByte]

/-- C6 amended: characters with no Windows-1252 mapping are excluded from
both width sums and emitted bytes; ASCII control characters (codepoints
0–31) are excluded from width sums but are passed through into the
emitted bytes (`to_winansi_bytes` maps codepoints ≤ 0x7F to themselves,
and only the width sums filter `b >= 32`). -/
theorem c6_amended_winansi_narrowing (widths : Nat → ℚ) (effFs : ℚ)
    (s1 s2 : List Char) (c : Char) :
    (c.toNat < 32 →
      wordWidth widths effFs (s1 ++ c :: s2) = wordWidth widths effFs (s1 ++ s2)
      ∧ toWinansiBytes (s1 ++ c :: s2)
          = toWinansiBytes s1 ++ c.toNat :: toWinansiBytes s2)
    ∧ (winAnsiByte c = none →
      wordWidth widths effFs (s1 ++ c :: s2) = wordWidth widths effFs (s1 ++ s2)
      ∧ toWinansiBytes (s1 ++ c :: s2) = toWinansiBytes (s1 ++ s2)) := by
  constructor
  · intro hc
    have hb : winAnsiByte c = some c.toNat := by
      unfold winAnsiByte
      rw [if_pos (by omega)]
    have ht : toWinansiBytes (s1 ++ c :: s2)
        = toWinansiBytes s1 ++ c.toNat :: toWinansiBytes s2 := by
      simp [toWinansiBytes, List.filterMap_append, List.filterMap_cons, hb]
    have hnot : ¬ (32 ≤ c.toNat) := by omega
    refine ⟨?_, ht⟩
    simp [wordWidth, ht, toWinansiBytes, List.filterMap_append, List.filterMap_cons,
      hb, List.filter_append, List.filter_cons, hnot]
  · intro hn
    have ht : toWinansiBytes (s1 ++ c :: s2) = toWinansiBytes (s1 ++ s2) := by
      simp [toWinansiBytes, List.filterMap_append, List.filterMap_cons, hn]
    exact ⟨by rw [wordWidth, ht, wordWidth], ht⟩

/-- Witness for C6 amended: BEL stays in the emitted bytes but not in the
width sum; U+0090 (no Windows-1252 mapping) is dropped from both. -/
theorem c6_amended_witness :
    (wordWidth (fun _ => 500) 12 (['a'] ++ Char.ofNat 7 :: ['b'])
        = wordWidth (fun _ => 500) 12 (['a'] ++ ['b'])
      ∧ toWinansiBytes (['a'] ++ Char.ofNat 7 :: ['b'])
          = toWinansiBytes ['a'] ++ (Char.ofNat 7).toNat :: toWinansiBytes ['b'])
    ∧ (wordWidth (fun _ => 500) 12 (['a'] ++ Char.ofNat 0x90 :: ['b'])
        = wordWidth (fun _ => 500) 12 (['a'] ++ ['b'])
      ∧ toWinansiBytes (['a'] ++ Char.ofNat 0x90 :: ['b'])
          = toWinansiBytes (['a'] ++ ['b'])) :=
  ⟨(c6_amended_winansi_narrowing (fun _ => 500) 12 ['a'] ['b'] (Char.ofNat 7)).1
      (by decide),
    (c6_amended_winansi_narrowing (fun _ => 500) 12 ['a'] ['b'] (Char.ofNat 0x90)).2
      (by decide)⟩

/-! ## C5 — column auto-fit: counterexample and amended preservation -/

/-- Sum of a pointwise sum of zipWiths. -/
theorem zipWith_sum_add (f g : ℚ → ℚ → ℚ) :
    ∀ (as bs : List ℚ),
      (List.zipWith (fun a b => f a b + g a b) as bs).sum
        = (List.zipWith f as bs).sum + (List.zipWith g as bs).sum := by
  intro as
  induction as with
  | nil => intro bs; simp
  | cons a as ih =>
    intro bs
    cases bs with
    | nil => simp
    | cons b bs => simp only [List.zipWith_cons_cons, List.sum_cons, ih]; ring

/-- Scalar factor pulls out of a zipWith sum. -/
theorem zipWith_sum_mul (g : ℚ → ℚ → ℚ) (k : ℚ) :
    ∀ (as bs : List ℚ),
      (List.zipWith (fun a b => g a b * k) as bs).sum
        = (List.zipWith g as bs).sum * k := by
  intro as
  induction as with
  | nil => intro bs; simp
  | cons a as ih =>
    intro bs
    cases bs with
    | nil => simp
    | cons b bs => simp only [List.zipWith_cons_cons, List.sum_cons, ih]; ring

/-- Pointwise-equal zip functions give equal zipWiths. -/
theorem zipWith_congr_fun (f g : ℚ → ℚ → ℚ) (h : ∀ a b, f a b = g a b) :
    ∀ (as bs : List ℚ), List.zipWith f as bs = List.zipWith g as bs := by
  intro as
  induction as with
  | nil => intro bs; simp
  | cons a as ih =>
    intro bs
    cases bs with
    | nil => simp
    | cons b bs => simp only [List.zipWith_cons_cons, ih, h]

/-- Re-zipping a zipWith against its second argument composes pointwise. -/
theorem zipWith_comp_left (f g : ℚ → ℚ → ℚ) :
    ∀ (as bs : List ℚ),
      List.zipWith f (List.zipWith g as bs) bs
        = List.zipWith (fun a b => f (g a b) b) as bs := by
  intro as
  induction as with
  | nil => intro bs; simp
  | cons a as ih =>
    intro bs
    cases bs with
    | nil => simp
    | cons b bs => simp only [List.zipWith_cons_cons, ih]

/-- Projecting the first component of a zip of equal-length lists. -/
theorem zipWith_fst_eq (as bs : List ℚ) (h : as.length = bs.length) :
    List.zipWith (fun a _ => a) as bs = as := by
  induction as generalizing bs with
  | nil => simp
  | cons a as ih =>
    cases bs with
    | nil => simp at h
    | cons b bs =>
      simp only [List.zipWith_cons_cons]
      rw [ih bs (by simpa using h)]

/-- Members of a zipWith are images of pairs. -/
theorem mem_zipWith_exists {f : ℚ → ℚ → ℚ} :
    ∀ {as bs : List ℚ} {x : ℚ}, x ∈ List.zipWith f as bs → ∃ a b, x = f a b := by
  intro as
  induction as with
  | nil => intro bs x hx; simp at hx
  | cons a as ih =>
    intro bs x hx
    cases bs with
    | nil => simp at hx
    | cons b bs =>
      simp only [List.zipWith_cons_cons, List.mem_cons] at hx
      rcases hx with hx | hx
      · exact ⟨a, b, hx⟩
      · exact ih hx

/-- Elementwise lower bound of a zipWith by its second argument. -/
theorem zipWith_get?_le (f : ℚ → ℚ → ℚ) (h : ∀ a b, b ≤ f a b) :
    ∀ (as bs : List ℚ) (i : Nat) (m w : ℚ), bs.get? i = some m →
      (List.zipWith f as bs).get? i = some w → m ≤ w := by
  intro as
  induction as with
  | nil => intro bs i m w _ h2; simp at h2
  | cons a as ih =>
    intro bs i m w h1 h2
    cases bs with
    | nil => simp at h2
    | cons b bs =>
      cases i with
      | zero =>
        simp only [List.zipWith_cons_cons, List.get?, Option.some.injEq] at h1 h2
        subst h1; subst h2
        exact h a b
      | succ i =>
        simp only [List.zipWith_cons_cons, List.get?] at h1 h2
        exact ih bs i m w h1 h2

theorem colMinWidths_length (fonts : String → FontEntry) (table : Table) :
    (colMinWidths fonts table).length = table.col_widths.length := by
  simp [colMinWidths]

theorem extraNeeded_nonneg (fonts : String → FontEntry) (table : Table) :
    0 ≤ extraNeeded fonts table := by
  unfold extraNeeded
  apply List.sum_nonneg
  intro x hx
  obtain ⟨a, b, rfl⟩ := mem_zipWith_exists hx
  exact le_max_left 0 _

/-- The grow/shrink arithmetic of `auto_fit_columns`, pointwise. -/
theorem autoFit_pointwise (factor w m : ℚ) :
    (if m < max w m then max w m - (max w m - m) * factor else max w m)
      = max w m - max 0 (w - m) * factor := by
  rcases le_or_lt w m with hwm | hmw
  · rw [max_eq_right hwm, if_neg (lt_irrefl m), max_eq_left (by linarith)]
    ring
  · rw [max_eq_left hmw.le, if_pos hmw, max_eq_right (by linarith)]

/-- C5 amended: whenever the growth needed by undersized columns does not
exceed the slack available in the others (`extra_needed ≤ shrinkable` —
which always holds when no column needs to grow), `auto_fit_columns`
returns widths in which every column is at least its longest-word minimum
and the total equals the hinted total (well within 0.01pt).  Outside that
regime the code either skips the shrink entirely (total not preserved) or
rescales all columns below their minima. -/
theorem c5_amended_auto_fit_within_slack (fonts : String → FontEntry) (table : Table)
    (h : extraNeeded fonts table ≤ shrinkAvail fonts table) :
    (∀ i m w, (colMinWidths fonts table).get? i = some m →
        (autoFitColumns fonts table).get? i = some w → m ≤ w)
    ∧ |(autoFitColumns fonts table).sum - table.col_widths.sum| ≤ 1/100 := by
  have hext0 : 0 ≤ extraNeeded fonts table := extraNeeded_nonneg fonts table
  have hlen : table.col_widths.length = (colMinWidths fonts table).length :=
    (colMinWidths_length fonts table).symm
  have hpmax : ∀ a b : ℚ, max a b = a + max 0 (b - a) := by
    intro a b
    rcases le_or_lt b a with hba | hab
    · rw [max_eq_left hba, max_eq_left (by linarith)]; ring
    · rw [max_eq_right hab.le, max_eq_right (by linarith)]; ring
  have hsum1 : (List.zipWith (fun w m => max w m) table.col_widths
      (colMinWidths fonts table)).sum
      = table.col_widths.sum + extraNeeded fonts table := by
    rw [zipWith_congr_fun (fun w m => max w m) (fun w m => w + max 0 (m - w)) hpmax
        table.col_widths (colMinWidths fonts table),
      zipWith_sum_add (fun a _ => a) (fun a b => max 0 (b - a))
        table.col_widths (colMinWidths fonts table),
      zipWith_fst_eq table.col_widths (colMinWidths fonts table) hlen]
    rfl
  by_cases hb : 0 < extraNeeded fonts table ∧ 0 < shrinkAvail fonts table
  · -- the shrink branch: the factor is extra/shrink and the total is exact
    have hsne : shrinkAvail fonts table ≠ 0 := ne_of_gt hb.2
    have hfac1 : extraNeeded fonts table / shrinkAvail fonts table ≤ 1 := by
      rw [div_le_one hb.2]; exact h
    have hfac0 : 0 ≤ extraNeeded fonts table / shrinkAvail fonts table :=
      div_nonneg hext0 hb.2.le
    have hemp : ¬ table.col_widths.isEmpty = true := by
      intro hcl
      have hnil : table.col_widths = [] := by
        cases hc : table.col_widths with
        | nil => rfl
        | cons x xs => rw [hc] at hcl; simp at hcl
      have : extraNeeded fonts table = 0 := by
        unfold extraNeeded
        rw [hnil]
        simp
      linarith [hb.1]
    have hs2 : (List.zipWith (fun w m => max w m
        - max 0 (w - m) * (extraNeeded fonts table / shrinkAvail fonts table))
        table.col_widths (colMinWidths fonts table)).sum
        = table.col_widths.sum := by
      rw [zipWith_congr_fun
          (fun w m => max w m
            - max 0 (w - m) * (extraNeeded fonts table / shrinkAvail fonts table))
          (fun w m => max w m
            + max 0 (w - m) * (-(extraNeeded fonts table / shrinkAvail fonts table)))
          (fun a b => by ring) table.col_widths (colMinWidths fonts table),
        zipWith_sum_add (fun w m => max w m)
          (fun w m => max 0 (w - m) * (-(extraNeeded fonts table / shrinkAvail fonts table)))
          table.col_widths (colMinWidths fonts table),
        zipWith_sum_mul (fun w m => max 0 (w - m))
          (-(extraNeeded fonts table / shrinkAvail fonts table))
          table.col_widths (colMinWidths fonts table),
        hsum1]
      have hshr : (List.zipWith (fun w m => max 0 (w - m)) table.col_widths
          (colMinWidths fonts table)).sum = shrinkAvail fonts table := rfl
      rw [hshr]
      field_simp
      ring
    have hval : autoFitColumns fonts table
        = List.zipWith (fun w m => max w m
            - max 0 (w - m) * (extraNeeded fonts table / shrinkAvail fonts table))
          table.col_widths (colMinWidths fonts table) := by
      simp only [autoFitColumns]
      rw [if_neg hemp, if_pos hb, min_eq_left h,
        zipWith_comp_left
          (fun w m => if m < w then w
            - (w - m) * (extraNeeded fonts table / shrinkAvail fonts table) else w)
          (fun w m => max w m) table.col_widths (colMinWidths fonts table),
        zipWith_congr_fun
          (fun a b => if b < max a b then max a b
            - (max a b - b) * (extraNeeded fonts table / shrinkAvail fonts table)
            else max a b)
          (fun a b => max a b
            - max 0 (a - b) * (extraNeeded fonts table / shrinkAvail fonts table))
          (fun a b => autoFit_pointwise _ a b)
          table.col_widths (colMinWidths fonts table),
        hs2]
      rw [if_neg (by simp)]
    constructor
    · intro i m w h1 h2
      rw [hval] at h2
      refine zipWith_get?_le _ ?_ table.col_widths (colMinWidths fonts table) i m w h1 h2
      intro a b
      rcases le_or_lt a b with hab | hba
      · rw [max_eq_right hab, max_eq_left (by linarith)]
        simp
      · rw [max_eq_left hba.le, max_eq_right (by linarith)]
        nlinarith
    · rw [hval, hs2]
      simp
  · -- no shrink performed: under the hypothesis no column needed to grow
    have hzero : extraNeeded fonts table = 0 := by
      rcases not_and_or.mp hb with hx | hs
      · linarith
      · have : shrinkAvail fonts table ≤ 0 := le_of_not_lt hs
        linarith
    have hval : autoFitColumns fonts table
        = List.zipWith (fun w m => max w m) table.col_widths (colMinWidths fonts table) := by
      simp only [autoFitColumns]
      by_cases hempty : table.col_widths.isEmpty
      · rw [if_pos hempty]
        have hnil : table.col_widths = [] := by
          cases hc : table.col_widths with
          | nil => rfl
          | cons x xs => rw [hc] at hempty; simp at hempty
        rw [hnil]
        simp
      · rw [if_neg hempty, if_neg hb]
    constructor
    · intro i m w h1 h2
      rw [hval] at h2
      exact zipWith_get?_le _ (fun a b => le_max_right a b)
        table.col_widths (colMinWidths fonts table) i m w h1 h2
    · rw [hval, hsum1, hzero]
      simp

/-- Fixtures for the C5 counterexample: one 100pt column containing a
single unbreakable 160pt word (one glyph of 1000/1000 em at 160pt). -/
def cxRun : Run := { mkRun ['a'] with font_size := 160 }

def cxPara : Paragraph := { wPara with runs := [cxRun] }

def cxTable : Table :=
  { col_widths := [100], rows := [{ cells := [{ width := 72, paragraphs := [cxPara] }] }] }

def wFonts1000 : String → FontEntry := fun _ =>
  { pdf_name := "F1", widths_1000 := fun _ => 1000, line_h_ratio := none,
    ascender_ratio := none }

theorem cxTable_min_widths : colMinWidths wFonts1000 cxTable = [160] := by
  norm_num +decide [List.filterMap_cons, List.filter_cons, colMinWidths, cellMinWidth,
    runMaxWordWidth, wordWidth, toWinansiBytes, winAnsiByte, splitWhitespace, splitWsGo,
    rustIsWhitespace, cxTable, cxPara, cxRun, wPara, mkRun, wFonts1000, List.range_succ]

/-- C5 counterexample: with no other column to shrink, the grown column is
returned as-is and the total width is NOT preserved (160 vs 100, off by
60pt ≫ 0.01pt), refuting the claim's conjunction. -/
theorem c5_counterexample_total_not_preserved :
    autoFitColumns wFonts1000 cxTable = [160]
    ∧ colMinWidths wFonts1000 cxTable = [160]
    ∧ ¬ (|(autoFitColumns wFonts1000 cxTable).sum - cxTable.col_widths.sum| ≤ 1/100) := by
  have hmins := cxTable_min_widths
  have hcw : cxTable.col_widths = [100] := rfl
  have hex : extraNeeded wFonts1000 cxTable = 60 := by
    norm_num [extraNeeded, hmins, hcw]
  have hsh : shrinkAvail wFonts1000 cxTable = 0 := by
    norm_num [shrinkAvail, hmins, hcw]
  have hval : autoFitColumns wFonts1000 cxTable = [160] := by
    norm_num [autoFitColumns, hcw, hmins, hex, hsh]
  refine ⟨hval, hmins, ?_⟩
  rw [hval, hcw]
  norm_num

/-- Fixture for the C5 amended witness: the spec's scenario C — columns
[100, 100] with a 160pt word in column 2, growth 60 ≤ slack 100. -/
def cxTable2 : Table :=
  { col_widths := [100, 100],
    rows := [{ cells := [{ width := 100, paragraphs := [] },
      { width := 100, paragraphs := [cxPara] }] }] }

theorem cxTable2_min_widths : colMinWidths wFonts1000 cxTable2 = [0, 160] := by
  norm_num +decide [List.filterMap_cons, List.filter_cons, colMinWidths, cellMinWidth,
    runMaxWordWidth, wordWidth, toWinansiBytes, winAnsiByte, splitWhitespace, splitWsGo,
    rustIsWhitespace, cxTable2, cxPara, cxRun, wPara, mkRun, wFonts1000, List.range_succ]

theorem c5_amended_witness :
    (∀ i m w, (colMinWidths wFonts1000 cxTable2).get? i = some m →
        (autoFitColumns wFonts1000 cxTable2).get? i = some w → m ≤ w)
    ∧ |(autoFitColumns wFonts1000 cxTable2).sum - cxTable2.col_widths.sum| ≤ 1/100 := by
  have hmins := cxTable2_min_widths
  have hcw : cxTable2.col_widths = [100, 100] := rfl
  refine c5_amended_auto_fit_within_slack wFonts1000 cxTable2 ?_
  show extraNeeded wFonts1000 cxTable2 ≤ shrinkAvail wFonts1000 cxTable2
  have hex : extraNeeded wFonts1000 cxTable2 = 60 := by
    norm_num [extraNeeded, hmins, hcw]
  have hsh : shrinkAvail wFonts1000 cxTable2 = 100 := by
    norm_num [shrinkAvail, hmins, hcw]
  rw [hex, hsh]
  norm_num

/-! ## C2 — wrapped lines never overflow (single-overlong-word exception) -/

/-- The per-line property of C2: chunks lie within the line's total width,
and the total width respects `max_width` except for a line made of a
single word wider than `max_width`. -/
def LineGood (maxWidth : ℚ) (l : TextLine) : Prop :=
  (∀ c ∈ l.chunks, c.x_offset + c.width ≤ l.total_width)
  ∧ (l.total_width ≤ maxWidth ∨ ∃ c, l.chunks = [c] ∧ maxWidth < c.width)

/-- Invariant of the wrap loop's accumulator: chunk extents stay below the
running total, a multi-chunk current line fits `max_width`, a singleton
current line starts at offset 0, the running total is below the cursor,
the cursor is 0 on an empty line, and every finished line is good. -/
def AccInv (maxWidth : ℚ) (acc : LineAcc) : Prop :=
  (∀ c ∈ acc.chunks, c.x_offset + c.width ≤ totalOf acc.chunks)
  ∧ (2 ≤ acc.chunks.length → totalOf acc.chunks ≤ maxWidth)
  ∧ (∀ c, acc.chunks = [c] → c.x_offset = 0)
  ∧ totalOf acc.chunks ≤ acc.currentX
  ∧ (acc.chunks = [] → acc.currentX = 0)
  ∧ (∀ l ∈ acc.lines, LineGood maxWidth l)

theorem totalOf_concat (l : List WordChunk) (c : WordChunk) :
    totalOf (l ++ [c]) = c.x_offset + c.width := by
  simp [totalOf]

theorem totalOf_single (c : WordChunk) : totalOf [c] = c.x_offset + c.width := by
  simp [totalOf]

/-- Finishing a non-empty current line under the accumulator invariant
produces a good line. -/
theorem finishLine_good (maxWidth : ℚ) (chunks : List WordChunk)
    (h1 : ∀ c ∈ chunks, c.x_offset + c.width ≤ totalOf chunks)
    (h2 : 2 ≤ chunks.length → totalOf chunks ≤ maxWidth)
    (h3 : ∀ c, chunks = [c] → c.x_offset = 0)
    (hne : chunks ≠ []) :
    LineGood maxWidth (finishLine chunks) := by
  refine ⟨h1, ?_⟩
  cases chunks with
  | nil => exact absurd rfl hne
  | cons c rest =>
    cases rest with
    | nil =>
      have hx := h3 c rfl
      rcases le_or_lt c.width maxWidth with hle | hgt
      · left
        show totalOf [c] ≤ maxWidth
        rw [totalOf_single, hx]
        linarith
      · exact Or.inr ⟨c, rfl, hgt⟩
    | cons c2 rest2 =>
      left
      exact h2 (by simp [List.length_cons])

/-- One word placement preserves the accumulator invariant. -/
theorem stepWord_inv (maxWidth : ℚ) (pdfName : String) (word : List Char)
    (effFs : ℚ) (color : Option (Nat × Nat × Nat)) (ul strike : Bool)
    (yOff ww effSpaceW : ℚ) (needSpaceCond : Bool) (acc : LineAcc)
    (hin : AccInv maxWidth acc) (hww : 0 ≤ ww) (hsp : 0 ≤ effSpaceW) :
    AccInv maxWidth (stepWord maxWidth pdfName word effFs color ul strike yOff
      ww effSpaceW needSpaceCond acc) := by
  obtain ⟨i1, i2, i3, i4, i5, i6⟩ := hin
  simp only [stepWord]
  generalize hpx : (if (¬acc.chunks.isEmpty = true ∧ needSpaceCond = true) then
    acc.currentX + effSpaceW else acc.currentX) = px
  have hxle : acc.currentX ≤ px := by
    rw [← hpx]
    split_ifs
    · linarith
    · exact le_rfl
  by_cases hbr : ¬acc.chunks.isEmpty = true ∧ maxWidth < px + ww
  · rw [if_pos hbr]
    refine ⟨?_, ?_, ?_, ?_, ?_, ?_⟩
    · intro c hc
      simp only [List.mem_singleton] at hc
      subst hc
      rw [totalOf_single]
    · intro hlen
      simp at hlen
    · intro c hc
      cases hc
      rfl
    · rw [totalOf_single]
      simp
    · intro hc
      simp at hc
    · intro l hl
      rw [List.mem_append] at hl
      rcases hl with hl | hl
      · exact i6 l hl
      · simp only [List.mem_singleton] at hl
        subst hl
        exact finishLine_good maxWidth acc.chunks i1 i2 i3
          (fun hn => hbr.1 (by simp [hn]))
  · rw [if_neg hbr]
    have htot := totalOf_concat acc.chunks
      ⟨pdfName, word, effFs, color, px, ww, ul, strike, yOff⟩
    refine ⟨?_, ?_, ?_, ?_, ?_, ?_⟩
    · intro c hc
      rw [List.mem_append] at hc
      rcases hc with hc | hc
      · have := i1 c hc
        rw [htot]
        simp only
        linarith
      · simp only [List.mem_singleton] at hc
        subst hc
        rw [htot]
    · intro hlen
      have hne : acc.chunks ≠ [] := by
        intro hn
        rw [hn] at hlen
        simp at hlen
      have hemp : ¬acc.chunks.isEmpty = true := by
        simp [List.isEmpty_iff, hne]
      have hle : ¬ (maxWidth < px + ww) := fun hlt => hbr ⟨hemp, hlt⟩
      rw [htot]
      simp only
      linarith [not_lt.mp hle]
    · intro c hc
      have : acc.chunks = [] ∧
          (⟨pdfName, word, effFs, color, px, ww, ul, strike, yOff⟩ : WordChunk) = c := by
        cases hch : acc.chunks with
        | nil =>
          rw [hch] at hc
          simp at hc
          exact ⟨rfl, hc⟩
        | cons a rest =>
          rw [hch] at hc
          have := congrArg List.length hc
          simp [List.length_append] at this
      obtain ⟨hnil, hcc⟩ := this
      rw [← hcc]
      simp only
      rw [← hpx]
      have : ¬ (¬acc.chunks.isEmpty = true ∧ needSpaceCond = true) := by
        intro hcontra
        exact hcontra.1 (by simp [hnil])
      rw [if_neg this]
      exact i5 hnil
    · rw [htot]
    · intro hc
      simp at hc
    · exact i6

/-- `wordWidth` is non-negative for non-negative advance widths and size. -/
theorem wordWidth_nonneg (widths : Nat → ℚ) (effFs : ℚ) (word : List Char)
    (hw : ∀ i, 0 ≤ widths i) (heff : 0 ≤ effFs) :
    0 ≤ wordWidth widths effFs word := by
  unfold wordWidth
  apply List.sum_nonneg
  intro x hx
  simp only [List.mem_map] at hx
  obtain ⟨b, _, rfl⟩ := hx
  have h1 := hw (b - 32)
  have h2 : (0:ℚ) ≤ widths (b - 32) * effFs := mul_nonneg h1 heff
  have h3 : (0:ℚ) < 1000 := by norm_num
  exact div_nonneg h2 h3.le

theorem effectiveFontSize_nonneg (run : Run) (h : 0 ≤ run.font_size) :
    0 ≤ effectiveFontSize run := by
  unfold effectiveFontSize
  cases run.vertical_align
  · exact h
  · exact mul_nonneg h (by norm_num)
  · exact mul_nonneg h (by norm_num)

/-- The per-run word loop preserves the accumulator invariant. -/
theorem runWordsLoop_inv (maxWidth : ℚ) (entry : FontEntry) (run : Run)
    (effFs spaceW yOff : ℚ) (prevWs : Bool) (prevSpaceW : ℚ)
    (hw : ∀ i, 0 ≤ entry.widths_1000 i) (heff : 0 ≤ effFs)
    (hspw : 0 ≤ spaceW) (hpsw : 0 ≤ prevSpaceW) :
    ∀ (words : List (List Char)) (i : Nat) (acc : LineAcc), AccInv maxWidth acc →
      AccInv maxWidth (runWordsLoop maxWidth entry run effFs spaceW yOff prevWs
        prevSpaceW i words acc) := by
  intro words
  induction words with
  | nil => intro i acc h; exact h
  | cons w ws ih =>
    intro i acc h
    simp only [runWordsLoop]
    apply ih
    apply stepWord_inv _ _ _ _ _ _ _ _ _ _ _ _ h
    · exact wordWidth_nonneg entry.widths_1000 effFs w hw heff
    · split_ifs
      · exact hspw
      · exact hpsw

/-- The run loop preserves the accumulator invariant. -/
theorem runsLoop_inv (fonts : String → FontEntry) (maxWidth : ℚ)
    (hw : ∀ k i, 0 ≤ (fonts k).widths_1000 i) :
    ∀ (runs : List Run) (acc : LineAcc) (pws : Bool) (psw : ℚ),
      (∀ r ∈ runs, 0 ≤ r.font_size) → AccInv maxWidth acc → 0 ≤ psw →
      AccInv maxWidth (runsLoop fonts maxWidth runs (acc, pws, psw)).1 := by
  intro runs
  induction runs with
  | nil => intro acc pws psw _ h _; exact h
  | cons run rest ih =>
    intro acc pws psw hfs h hpsw
    simp only [runsLoop]
    by_cases htab : run.is_tab
    · rw [if_pos htab]
      exact ih acc pws psw (fun r hr => hfs r (List.mem_cons_of_mem _ hr)) h hpsw
    · rw [if_neg htab]
      have heff : 0 ≤ effectiveFontSize run :=
        effectiveFontSize_nonneg run (hfs run (List.mem_cons_self _ _))
      have hspw : 0 ≤ (fonts (fontKey run)).widths_1000 0 * effectiveFontSize run / 1000 :=
        div_nonneg (mul_nonneg (hw _ 0) heff) (by norm_num)
      refine ih _ _ _ (fun r hr => hfs r (List.mem_cons_of_mem _ hr)) ?_ hspw
      exact runWordsLoop_inv maxWidth (fonts (fontKey run)) run (effectiveFontSize run)
        _ (vertYOffset run) pws psw (hw _) heff hspw hpsw _ 0 acc h

/-- C2: every line produced by `build_paragraph_lines` satisfies
`chunk.offset + chunk.width ≤ total_width` for each of its chunks, and
`total_width ≤ max_width` — except when the line consists of a single word
whose width alone exceeds `max_width`, which is still placed alone on its
own line.  (The wrap loop is a structural fold over runs and words, so it
terminates by construction.)  Hypotheses: the registered advance widths
and the run font sizes are non-negative, and the wrap width is
non-negative — as for every `FontEntry` the code builds. -/
theorem c2_wrap_no_overflow (fonts : String → FontEntry) (runs : List Run)
    (maxWidth : ℚ) (hw : ∀ k i, 0 ≤ (fonts k).widths_1000 i)
    (hfs : ∀ r ∈ runs, 0 ≤ r.font_size) (hmw : 0 ≤ maxWidth) :
    ∀ l ∈ buildParagraphLines runs fonts maxWidth,
      (∀ c ∈ l.chunks, c.x_offset + c.width ≤ l.total_width)
      ∧ (l.total_width ≤ maxWidth ∨ ∃ c, l.chunks = [c] ∧ maxWidth < c.width) := by
  have hinv0 : AccInv maxWidth ⟨[], [], 0⟩ := by
    refine ⟨?_, ?_, ?_, ?_, ?_, ?_⟩ <;> simp [totalOf]
  have hinv := runsLoop_inv fonts maxWidth hw runs ⟨[], [], 0⟩ false 0 hfs hinv0 le_rfl
  obtain ⟨i1, i2, i3, i4, i5, i6⟩ := hinv
  intro l hl
  simp only [buildParagraphLines] at hl
  by_cases hch : (runsLoop fonts maxWidth runs (⟨[], [], 0⟩, false, 0)).1.chunks.isEmpty
  · rw [if_pos hch] at hl
    by_cases hle : (runsLoop fonts maxWidth runs (⟨[], [], 0⟩, false, 0)).1.lines.isEmpty
    · rw [if_pos hle] at hl
      simp only [List.mem_singleton] at hl
      subst hl
      exact ⟨by intro c hc; simp at hc, Or.inl hmw⟩
    · rw [if_neg hle] at hl
      exact i6 l hl
  · rw [if_neg hch] at hl
    have hne : (runsLoop fonts maxWidth runs (⟨[], [], 0⟩, false, 0)).1.lines
        ++ [finishLine (runsLoop fonts maxWidth runs (⟨[], [], 0⟩, false, 0)).1.chunks]
        ≠ [] := by simp
    rw [if_neg (by simp)] at hl
    rw [List.mem_append] at hl
    rcases hl with hl | hl
    · exact i6 l hl
    · simp only [List.mem_singleton] at hl
      subst hl
      exact finishLine_good maxWidth _ i1 i2 i3
        (fun hn => hch (by simp [hn]))

/-- The single line "Hi yo" wraps to at width 100 with the 500/1000-em
12pt font: two chunks at offsets 0 and 18, each 12pt wide. -/
def wLineHi : TextLine :=
  ⟨[⟨"F1", ['H', 'i'], 12, none, 0, 12, false, false, 0⟩,
    ⟨"F1", ['y', 'o'], 12, none, 18, 12, false, false, 0⟩], 30⟩

/-- Witness for C2 at the concrete wrapped line of a two-word run. -/
theorem c2_witness :
    (∀ c ∈ wLineHi.chunks, c.x_offset + c.width ≤ wLineHi.total_width)
    ∧ (wLineHi.total_width ≤ 100 ∨ ∃ c, wLineHi.chunks = [c] ∧ 100 < c.width) := by
  have heval : buildParagraphLines [mkRun ['H', 'i', ' ', 'y', 'o']] cFonts500 100
      = [wLineHi] := by
    norm_num +decide [List.filterMap_cons, List.filter_cons, buildParagraphLines,
      runsLoop, runWordsLoop, stepWord, finishLine, totalOf, splitWhitespace,
      splitWsGo, rustIsWhitespace, startsWithWs, endsWithWs, wordWidth,
      toWinansiBytes, winAnsiByte, effectiveFontSize, vertYOffset, fontKey,
      primaryFontName, cFonts500, cFont500, mkRun, wLineHi]
  exact c2_wrap_no_overflow cFonts500 [mkRun ['H', 'i', ' ', 'y', 'o']] 100
    (fun _ _ => by norm_num [cFonts500, cFont500])
    (fun r hr => by
      simp only [List.mem_singleton] at hr
      subst hr
      norm_num [mkRun])
    (by norm_num)
    wLineHi (by rw [heval]; exact List.mem_singleton_self _)

end Dxp
